import Mathlib

/-!
Rocket.Chat REST client, message operations (`rest/messages.go`).

A shallow embedding of the message operations of the REST client and of the
standard-library routines they call.  A Go `string` is a sequence of bytes;
it is modelled as a list of natural numbers, each byte being its value.
-/

namespace Rest

/-- A Go string or byte slice: the list of its bytes. -/
abbrev Bytes := List Nat

namespace utf8

/-- The replacement rune U+FFFD, `utf8.RuneError`. -/
def RuneError : Nat := 0xFFFD

/-- Bytes below `utf8.RuneSelf` are single-byte runes. -/
def RuneSelf : Nat := 0x80

/-- Go `utf8.AppendRune` (on the empty slice): the UTF-8 encoding of a rune.
Surrogates and values above U+10FFFF are written as U+FFFD. -/
def EncodeRune (r : Nat) : Bytes :=
  if r < 0x80 then [r]
  else if r < 0x800 then [0xC0 + r / 64, 0x80 + r % 64]
  else if 0x10FFFF < r ∨ (0xD800 ≤ r ∧ r ≤ 0xDFFF) then [0xEF, 0xBF, 0xBD]
  else if r < 0x10000 then [0xE0 + r / 4096, 0x80 + r / 64 % 64, 0x80 + r % 64]
  else [0xF0 + r / 262144, 0x80 + r / 4096 % 64, 0x80 + r / 64 % 64, 0x80 + r % 64]

/-- Go `utf8.acceptRanges`, lower bound: the least second byte allowed after
the first byte `p0`. -/
def acceptLo (p0 : Nat) : Nat :=
  if p0 = 0xE0 then 0xA0 else if p0 = 0xF0 then 0x90 else 0x80

/-- Go `utf8.acceptRanges`, upper bound: the greatest second byte allowed
after the first byte `p0`. -/
def acceptHi (p0 : Nat) : Nat :=
  if p0 = 0xED then 0x9F else if p0 = 0xF4 then 0x8F else 0xBF

/-- Go `utf8.DecodeRune`: the first rune of `p` and its width in bytes.  An
empty input gives `(RuneError, 0)`, an ill-formed or truncated encoding
`(RuneError, 1)`.  The masks and shifts of the source are written with
`%`, `*` and `+`. -/
def DecodeRune : Bytes → Nat × Nat
  | [] => (RuneError, 0)
  | p0 :: p =>
      if p0 < RuneSelf then (p0, 1)
      else if p0 < 0xC2 ∨ 0xF4 < p0 then (RuneError, 1)
      else if p0 < 0xE0 then
        match p with
        | b1 :: _ =>
            if b1 < acceptLo p0 ∨ acceptHi p0 < b1 then (RuneError, 1)
            else (p0 % 32 * 64 + b1 % 64, 2)
        | _ => (RuneError, 1)
      else if p0 < 0xF0 then
        match p with
        | b1 :: b2 :: _ =>
            if b1 < acceptLo p0 ∨ acceptHi p0 < b1 then (RuneError, 1)
            else if b2 < 0x80 ∨ 0xBF < b2 then (RuneError, 1)
            else (p0 % 16 * 4096 + b1 % 64 * 64 + b2 % 64, 3)
        | _ => (RuneError, 1)
      else
        match p with
        | b1 :: b2 :: b3 :: _ =>
            if b1 < acceptLo p0 ∨ acceptHi p0 < b1 then (RuneError, 1)
            else if b2 < 0x80 ∨ 0xBF < b2 then (RuneError, 1)
            else if b3 < 0x80 ∨ 0xBF < b3 then (RuneError, 1)
            else (p0 % 8 * 262144 + b1 % 64 * 4096 + b2 % 64 * 64 + b3 % 64, 4)
        | _ => (RuneError, 1)

/-- Go `utf8.ValidString`, by its meaning: the string splits into well-formed
encodings.  The first argument bounds the number of runes read. -/
def validAux : Nat → Bytes → Bool
  | _, [] => true
  | 0, _ :: _ => false
  | n + 1, b :: s =>
      if b < RuneSelf then validAux n s
      else
        let d := DecodeRune (b :: s)
        if d.1 = RuneError ∧ d.2 = 1 then false
        else validAux n ((b :: s).drop d.2)

/-- Go `utf8.ValidString`. -/
def ValidString (s : Bytes) : Bool := validAux s.length s

end utf8

/-- The bytes of a string literal of the source (its UTF-8 encoding). -/
def lit (s : String) : Bytes :=
  s.toList.flatMap (fun c => utf8.EncodeRune c.toNat)

namespace strings

/-- Go `strings.NewReplacer` for single-byte old strings (the
`byteStringReplacer`): the argument pairs, in argument order. -/
abbrev Replacer := List (Nat × Bytes)

/-- The replacement of one byte: the first pair whose old byte matches wins;
a byte without a pair is kept. -/
def Replacer.replaceByte : Replacer → Nat → Bytes
  | [], b => [b]
  | (old, new) :: rest, b => if b = old then new else Replacer.replaceByte rest b

/-- Go `(*Replacer).Replace` of the byte replacer: every byte is replaced on
its own, left to right. -/
def Replacer.Replace (r : Replacer) : Bytes → Bytes
  | [] => []
  | b :: s => r.replaceByte b ++ Replacer.Replace r s

end strings

namespace html

/-- Go `html.htmlEscaper`. -/
def htmlEscaper : strings.Replacer :=
  [ (0x26, lit "&amp;"),
    (0x27, lit "&#39;"),
    (0x3C, lit "&lt;"),
    (0x3E, lit "&gt;"),
    (0x22, lit "&#34;") ]

/-- Go `html.EscapeString`. -/
def EscapeString (s : Bytes) : Bytes :=
  strings.Replacer.Replace htmlEscaper s

end html

namespace fmt

/-- The report `fmt` writes for operands the format did not use. -/
def extra : List Bytes → Bytes
  | [] => []
  | a :: args =>
      lit "%!(EXTRA " ++
        (lit "string=" ++ a ++ (args.flatMap fun x => lit ", string=" ++ x)) ++ lit ")"

/-- Go `fmt.Sprintf` restricted to string operands and to the verbs `%s` and
`%%`: `%s` writes the bytes of the next operand unchanged, or `%!s(MISSING)`
when the operands are used up; a `%` that ends the format writes
`%!(NOVERB)`; operands left over are reported at the end.  Flags, widths and
other verbs do not occur in the source and are not interpreted. -/
def Sprintf : Bytes → List Bytes → Bytes
  | [], args => extra args
  | b :: rest, args =>
      if b = 0x25 then
        match rest with
        | [] => lit "%!(NOVERB)" ++ extra args
        | v :: rest2 =>
            if v = 0x25 then 0x25 :: Sprintf rest2 args
            else if v = 0x73 then
              match args with
              | [] => lit "%!s(MISSING)" ++ Sprintf rest2 []
              | a :: args2 => a ++ Sprintf rest2 args2
            else b :: v :: Sprintf rest2 args
      else b :: Sprintf rest args

end fmt

namespace json

/-- Go `encoding/json.htmlSafeSet`: the ASCII bytes written without an
escape when HTML escaping is on (as it is in `Marshal`). -/
def htmlSafeSet (b : Nat) : Bool :=
  decide (0x20 ≤ b ∧ b < utf8.RuneSelf ∧
    b ≠ 0x22 ∧ b ≠ 0x26 ∧ b ≠ 0x3C ∧ b ≠ 0x3E ∧ b ≠ 0x5C)

/-- Go `encoding/json.hex`. -/
def hex : Bytes := lit "0123456789abcdef"

/-- The escape `appendString` writes for an ASCII byte outside the safe set. -/
def escapeByte (b : Nat) : Bytes :=
  if b = 0x5C ∨ b = 0x22 then [0x5C, b]
  else if b = 0x08 then lit "\\b"
  else if b = 0x0C then lit "\\f"
  else if b = 0x0A then lit "\\n"
  else if b = 0x0D then lit "\\r"
  else if b = 0x09 then lit "\\t"
  else lit "\\u00" ++ [hex.getD (b / 16) 0, hex.getD (b % 16) 0]

/-- The loop of Go `encoding/json.appendString` with `escapeHTML` set: the
text written between the two quotes.  The first argument bounds the number
of iterations; every iteration consumes at least one byte. -/
def appendStringLoop : Nat → Bytes → Bytes
  | _, [] => []
  | 0, _ :: _ => []
  | n + 1, b :: s =>
      if b < utf8.RuneSelf then
        if htmlSafeSet b then b :: appendStringLoop n s
        else escapeByte b ++ appendStringLoop n s
      else
        let d := utf8.DecodeRune (b :: s)
        if d.1 = utf8.RuneError ∧ d.2 = 1 then
          lit "\\ufffd" ++ appendStringLoop n s
        else if d.1 = 0x2028 ∨ d.1 = 0x2029 then
          lit "\\u202" ++ [hex.getD (d.1 % 16) 0] ++ appendStringLoop n ((b :: s).drop d.2)
        else (b :: s).take d.2 ++ appendStringLoop n ((b :: s).drop d.2)

/-- Go `encoding/json.appendString` with `escapeHTML` set: a JSON string
literal for `s`. -/
def appendString (s : Bytes) : Bytes :=
  0x22 :: appendStringLoop s.length s ++ [0x22]

/-- A decoded JSON text.  Numbers keep their literal; the members of an
object are kept in the order of the text. -/
inductive Value where
  | null : Value
  | bool (b : Bool) : Value
  | number (text : Bytes) : Value
  | string (s : Bytes) : Value
  | array (xs : List Value) : Value
  | object (members : List (Bytes × Value)) : Value

/-- The value of a hexadecimal digit, either case. -/
def unhex (c : Nat) : Option Nat :=
  if 0x30 ≤ c ∧ c ≤ 0x39 then some (c - 0x30)
  else if 0x61 ≤ c ∧ c ≤ 0x66 then some (c - 0x61 + 10)
  else if 0x41 ≤ c ∧ c ≤ 0x46 then some (c - 0x41 + 10)
  else none

/-- Go `encoding/json.getu4`: the rune of a leading `\uXXXX`, or `none`
(the source returns -1). -/
def getu4 : Bytes → Option Nat
  | 0x5C :: 0x75 :: a :: b :: c :: d :: _ =>
      match unhex a, unhex b, unhex c, unhex d with
      | some x, some y, some z, some w => some (x * 4096 + y * 256 + z * 16 + w)
      | _, _, _, _ => none
  | _ => none

/-- Go `utf16.DecodeRune`: the rune of a surrogate pair, U+FFFD when the two
halves are not a pair. -/
def utf16DecodeRune (r1 r2 : Nat) : Nat :=
  if 0xD800 ≤ r1 ∧ r1 < 0xDC00 ∧ 0xDC00 ≤ r2 ∧ r2 < 0xE000 then
    (r1 - 0xD800) * 1024 + (r2 - 0xDC00) + 0x10000
  else utf8.RuneError

/-- The byte a two-character escape stands for. -/
def unescape (c : Nat) : Option Nat :=
  if c = 0x22 ∨ c = 0x5C ∨ c = 0x2F then some c
  else if c = 0x62 then some 0x08
  else if c = 0x66 then some 0x0C
  else if c = 0x6E then some 0x0A
  else if c = 0x72 then some 0x0D
  else if c = 0x74 then some 0x09
  else none

/-- The loop of Go `encoding/json.unquote`, reading the text after an
opening quote up to the closing one: the decoded string and the input left
after the closing quote.  A raw control byte, an unknown escape or a missing
closing quote fails; ill-formed UTF-8 is read as U+FFFD.  The first argument
bounds the number of iterations. -/
def unquoteLoop : Nat → Bytes → Option (Bytes × Bytes)
  | _, [] => none
  | 0, _ :: _ => none
  | n + 1, c :: s =>
      if c = 0x22 then some ([], s)
      else if c = 0x5C then
        match s with
        | [] => none
        | e :: s1 =>
            if e = 0x75 then
              match getu4 (c :: s) with
              | none => none
              | some rr =>
                  let s2 := s1.drop 4
                  if 0xD800 ≤ rr ∧ rr < 0xE000 then
                    match getu4 s2 with
                    | some rr1 =>
                        if utf16DecodeRune rr rr1 ≠ utf8.RuneError then
                          (unquoteLoop n (s2.drop 6)).map
                            fun r => (utf8.EncodeRune (utf16DecodeRune rr rr1) ++ r.1, r.2)
                        else
                          (unquoteLoop n s2).map
                            fun r => (utf8.EncodeRune utf8.RuneError ++ r.1, r.2)
                    | none =>
                        (unquoteLoop n s2).map
                          fun r => (utf8.EncodeRune utf8.RuneError ++ r.1, r.2)
                  else (unquoteLoop n s2).map fun r => (utf8.EncodeRune rr ++ r.1, r.2)
            else
              match unescape e with
              | none => none
              | some x => (unquoteLoop n s1).map fun r => (x :: r.1, r.2)
      else if c < 0x20 then none
      else if c < utf8.RuneSelf then (unquoteLoop n s).map fun r => (c :: r.1, r.2)
      else
        let d := utf8.DecodeRune (c :: s)
        (unquoteLoop n ((c :: s).drop d.2)).map fun r => (utf8.EncodeRune d.1 ++ r.1, r.2)

/-- A JSON string literal at the head of the input, after its opening
quote. -/
def unquote (s : Bytes) : Option (Bytes × Bytes) := unquoteLoop s.length s

/-- Skips JSON white space (space, tab, line feed, carriage return). -/
def skipSpace : Bytes → Bytes
  | [] => []
  | c :: s => if c = 0x20 ∨ c = 0x09 ∨ c = 0x0A ∨ c = 0x0D then skipSpace s else c :: s

/-- Removes the literal `l` from the head of the input. -/
def expect : Bytes → Bytes → Option Bytes
  | [], s => some s
  | _ :: _, [] => none
  | a :: l, c :: s => if a = c then expect l s else none

/-- The longest run of decimal digits at the head of the input, and the
rest. -/
def digits : Bytes → Bytes × Bytes
  | [] => ([], [])
  | c :: s =>
      if 0x30 ≤ c ∧ c ≤ 0x39 then ((digits s).1.cons c, (digits s).2) else ([], c :: s)

/-- A JSON number at the head of the input: its literal and the rest. -/
def scanNumber (s : Bytes) : Option (Bytes × Bytes) :=
  let sign : Bytes × Bytes :=
    match s with
    | 0x2D :: r => ([0x2D], r)
    | _ => ([], s)
  let int : Option (Bytes × Bytes) :=
    match sign.2 with
    | [] => none
    | c :: r =>
        if c = 0x30 then some ([c], r)
        else if 0x31 ≤ c ∧ c ≤ 0x39 then some (c :: (digits r).1, (digits r).2)
        else none
  match int with
  | none => none
  | some (i, r) =>
      let frac : Option (Bytes × Bytes) :=
        match r with
        | 0x2E :: r1 =>
            if (digits r1).1 = [] then none else some (0x2E :: (digits r1).1, (digits r1).2)
        | _ => some ([], r)
      match frac with
      | none => none
      | some (f, r2) =>
          let exp : Option (Bytes × Bytes) :=
            match r2 with
            | [] => some ([], r2)
            | e :: r3 =>
                if e = 0x65 ∨ e = 0x45 then
                  let sg : Bytes × Bytes :=
                    match r3 with
                    | [] => ([], r3)
                    | g :: r4 => if g = 0x2B ∨ g = 0x2D then ([g], r4) else ([], r3)
                  if (digits sg.2).1 = [] then none
                  else some (e :: sg.1 ++ (digits sg.2).1, (digits sg.2).2)
                else some ([], r2)
          match exp with
          | none => none
          | some (x, r5) => some (sign.1 ++ i ++ f ++ x, r5)

mutual

/-- A JSON value at the head of the input, after optional white space: the
value and the input left.  The first argument bounds the nesting depth. -/
def parseValue : Nat → Bytes → Option (Value × Bytes)
  | 0, _ => none
  | n + 1, s =>
      match skipSpace s with
      | [] => none
      | c :: r =>
          if c = 0x7B then
            match skipSpace r with
            | [] => none
            | c1 :: r1 =>
                if c1 = 0x7D then some (Value.object [], r1)
                else (parseMembers n (c1 :: r1)).map fun m => (Value.object m.1, m.2)
          else if c = 0x5B then
            match skipSpace r with
            | [] => none
            | c1 :: r1 =>
                if c1 = 0x5D then some (Value.array [], r1)
                else (parseElements n (c1 :: r1)).map fun m => (Value.array m.1, m.2)
          else if c = 0x22 then (unquote r).map fun m => (Value.string m.1, m.2)
          else if c = 0x74 then (expect (lit "rue") r).map fun r1 => (Value.bool true, r1)
          else if c = 0x66 then (expect (lit "alse") r).map fun r1 => (Value.bool false, r1)
          else if c = 0x6E then (expect (lit "ull") r).map fun r1 => (Value.null, r1)
          else (scanNumber (c :: r)).map fun m => (Value.number m.1, m.2)

/-- The members of an object, from the first key to the closing brace. -/
def parseMembers : Nat → Bytes → Option (List (Bytes × Value) × Bytes)
  | 0, _ => none
  | n + 1, s =>
      match skipSpace s with
      | [] => none
      | q :: r =>
          if q = 0x22 then
            match unquote r with
            | none => none
            | some (k, r1) =>
                match skipSpace r1 with
                | [] => none
                | c :: r2 =>
                    if c = 0x3A then
                      match parseValue n r2 with
                      | none => none
                      | some (v, r3) =>
                          match skipSpace r3 with
                          | [] => none
                          | d :: r4 =>
                              if d = 0x2C then
                                (parseMembers n r4).map fun m => ((k, v) :: m.1, m.2)
                              else if d = 0x7D then some ([(k, v)], r4)
                              else none
                    else none
          else none

/-- The elements of an array, from the first element to the closing
bracket. -/
def parseElements : Nat → Bytes → Option (List Value × Bytes)
  | 0, _ => none
  | n + 1, s =>
      match parseValue n s with
      | none => none
      | some (v, r) =>
          match skipSpace r with
          | [] => none
          | d :: r1 =>
              if d = 0x2C then (parseElements n r1).map fun m => (v :: m.1, m.2)
              else if d = 0x5D then some ([v], r1)
              else none

end

/-- Decoding of a JSON text: one value, white space around it, nothing
else.  `none` when the text is not well-formed JSON. -/
def Unmarshal (data : Bytes) : Option Value :=
  match parseValue (data.length + 1) data with
  | none => none
  | some (v, r) => if skipSpace r = [] then some v else none

end json

namespace strings

/-- Go `strings.Compare a b < 0` or `= 0`: bytewise lexicographic order. -/
def le : Bytes → Bytes → Bool
  | [], _ => true
  | _ :: _, [] => false
  | a :: s, b :: t => if a < b then true else if b < a then false else le s t

end strings

/-- The Go values the source stores in its `map[string]interface{}`
payloads. -/
inductive Any where
  | string (s : Bytes) : Any
  | bool (b : Bool) : Any

/-- A Go `map[string]interface{}`: its entries, one for each key. -/
abbrev GoMap := List (Bytes × Any)

/-- The assignment `m[key] = value`. -/
def GoMap.set : GoMap → Bytes → Any → GoMap
  | [], key, value => [(key, value)]
  | (k, v) :: m, key, value =>
      if k = key then (k, value) :: m else (k, v) :: GoMap.set m key value

namespace json

/-- Insertion of an entry into entries ordered by key. -/
def insertEntry (e : Bytes × Any) : List (Bytes × Any) → List (Bytes × Any)
  | [] => [e]
  | x :: xs => if strings.le e.1 x.1 then e :: x :: xs else x :: insertEntry e xs

/-- The entries of a map in the order `Marshal` writes them: sorted by
key. -/
def sortedEntries : GoMap → List (Bytes × Any)
  | [] => []
  | e :: m => insertEntry e (sortedEntries m)

/-- The encoding of one value of a payload. -/
def encodeAny : Any → Bytes
  | Any.string s => appendString s
  | Any.bool true => lit "true"
  | Any.bool false => lit "false"

/-- The members of an object, separated by commas. -/
def encodeEntries : List (Bytes × Any) → Bytes
  | [] => []
  | [e] => appendString e.1 ++ 0x3A :: encodeAny e.2
  | e :: e2 :: es =>
      appendString e.1 ++ 0x3A :: encodeAny e.2 ++ 0x2C :: encodeEntries (e2 :: es)

/-- The map encoder of `encoding/json`: an object whose members are written
in sorted key order. -/
def encodeMap (m : GoMap) : Bytes :=
  0x7B :: encodeEntries (sortedEntries m) ++ [0x7D]

/-- Go `json.Marshal` of a `map[string]interface{}` holding strings and
booleans.  For these values the encoder reports no error. -/
def Marshal {ε : Type} (m : GoMap) : Except ε Bytes :=
  Except.ok (encodeMap m)

end json

namespace strconv

/-- The decimal digits of `u` in front of `acc`, least significant digit
written first (at the right).  The first argument bounds the number of
digits. -/
def formatBits : Nat → Nat → Bytes → Bytes
  | 0, u, acc => (0x30 + u % 10) :: acc
  | n + 1, u, acc =>
      if u < 10 then (0x30 + u) :: acc
      else formatBits n (u / 10) ((0x30 + u % 10) :: acc)

/-- Go `strconv.Itoa`: base 10, a leading `-` for a negative value. -/
def Itoa (i : Int) : Bytes :=
  if i < 0 then 0x2D :: formatBits i.natAbs i.natAbs [] else formatBits i.natAbs i.natAbs []

end strconv

namespace url

/-- Go `url.Values`, a `map[string][]string`: its entries, one for each
key. -/
abbrev Values := List (Bytes × List Bytes)

/-- The map index `v[key]` with its presence flag. -/
def Values.lookup : Values → Bytes → Option (List Bytes)
  | [], _ => none
  | (k, vs) :: v, key => if k = key then some vs else Values.lookup v key

/-- Go `Values.Add`: `v[key] = append(v[key], value)`. -/
def Values.Add : Values → Bytes → Bytes → Values
  | [], key, value => [(key, [value])]
  | (k, vs) :: v, key, value =>
      if k = key then (k, vs ++ [value]) :: v else (k, vs) :: Values.Add v key value

end url

namespace models

/-- The fields of `models.Channel` this file reads. -/
structure Channel where
  ID : Bytes
  Name : Bytes

/-- The field of `models.Pagination` this file reads. -/
structure Pagination where
  Count : Int

end models

/-- Go `MessagesResponse`.  A slice is `none` when nil. -/
structure MessagesResponse (Status Message : Type) where
  Status : Status
  Messages : Option (List Message)

/-- Go `MessageResponse`. -/
structure MessageResponse (Status Message : Type) where
  Status : Status
  Message : Message

/-- The types of the values this file passes to the client to be filled. -/
inductive Into where
  | Status : Into
  | MessageResponse : Into
  | MessagesResponse : Into

/-- The Go type a response value has. -/
def Into.type (Status Message : Type) : Into → Type
  | Into.Status => Status
  | Into.MessageResponse => Rest.MessageResponse Status Message
  | Into.MessagesResponse => Rest.MessagesResponse Status Message

/-- A call of the client: its method, endpoint and body or query. -/
inductive Request where
  | Post (endpoint : String) (body : Bytes) : Request
  | Get (endpoint : String) (params : url.Values) : Request

/-- The world a client works in: the requests issued through the client so
far, and the state of the transport and server behind it. -/
structure World (σ : Type) where
  requests : List Request
  remote : σ

/-- The HTTP client.  Its `Post` and `Get` live outside this file; what one
call does is a parameter: from the endpoint, the body or query, the response
value handed in and the remote state, it gives the response value as left by
the call, the error (`none` for nil) and the new remote state. -/
structure Client (σ ε Status Message : Type) where
  doPost : String → Bytes → (k : Into) → k.type Status Message → σ →
    (k.type Status Message × Option ε) × σ
  doGet : String → url.Values → (k : Into) → k.type Status Message → σ →
    (k.type Status Message × Option ε) × σ

section Operations

variable {σ ε Status Message PostMsg : Type}

/-- The call `c.Post(endpoint, body, response)`: one request, recorded. -/
def Client.Post (c : Client σ ε Status Message) (endpoint : String) (body : Bytes)
    (k : Into) (response : k.type Status Message) (w : World σ) :
    (k.type Status Message × Option ε) × World σ :=
  let r := c.doPost endpoint body k response w.remote
  (r.1, { requests := w.requests ++ [Request.Post endpoint body], remote := r.2 })

/-- The call `c.Get(endpoint, params, response)`: one request, recorded. -/
def Client.Get (c : Client σ ε Status Message) (endpoint : String) (params : url.Values)
    (k : Into) (response : k.type Status Message) (w : World σ) :
    (k.type Status Message × Option ε) × World σ :=
  let r := c.doGet endpoint params k response w.remote
  (r.1, { requests := w.requests ++ [Request.Get endpoint params], remote := r.2 })

variable [Inhabited Status] [Inhabited Message]

/-- Go `new(MessageResponse)`: the zero value. -/
def newMessageResponse : MessageResponse Status Message :=
  { Status := default, Message := default }

/-- Go `new(MessagesResponse)`: the zero value, with a nil slice. -/
def newMessagesResponse : MessagesResponse Status Message :=
  { Status := default, Messages := none }

/-- The request body `Send` builds. -/
def sendBody (channel : models.Channel) (msg : Bytes) : Bytes :=
  fmt.Sprintf (lit "\x7b \"channel\": \"%s\", \"text\": \"%s\"\x7d")
    [channel.Name, html.EscapeString msg]

/-- Go `Client.Send`. -/
def Client.Send (c : Client σ ε Status Message) (channel : models.Channel) (msg : Bytes)
    (w : World σ) : Option ε × World σ :=
  let body := sendBody channel msg
  let r := c.Post "chat.postMessage" body Into.MessageResponse newMessageResponse w
  (r.1.2, r.2)

/-- Go `Client.PostMessage`.  `marshal` is `json.Marshal` on
`*models.PostMessage`, a type declared outside this file (here `PostMsg`). -/
def Client.PostMessage (c : Client σ ε Status Message)
    (marshal : PostMsg → Except ε Bytes) (msg : PostMsg) (w : World σ) :
    (Option (MessageResponse Status Message) × Option ε) × World σ :=
  match marshal msg with
  | Except.error err => ((none, some err), w)
  | Except.ok body =>
      let r := c.Post "chat.postMessage" body Into.MessageResponse newMessageResponse w
      ((some r.1.1, r.1.2), r.2)

/-- The query `GetMessages` builds. -/
def getMessagesParams (channel : models.Channel) (page : Option models.Pagination) :
    url.Values :=
  let params : url.Values := [(lit "roomId", [channel.ID])]
  match page with
  | some p => params.Add (lit "count") (strconv.Itoa p.Count)
  | none => params

/-- Go `Client.GetMessages`.  A nil `page` is `none`. -/
def Client.GetMessages (c : Client σ ε Status Message) (channel : models.Channel)
    (page : Option models.Pagination) (w : World σ) :
    (Option (List Message) × Option ε) × World σ :=
  let params := getMessagesParams channel page
  let r := c.Get "channels.history" params Into.MessagesResponse newMessagesResponse w
  match r.1.2 with
  | some err => ((none, some err), r.2)
  | none => (((r.1.1 : MessagesResponse Status Message).Messages, none), r.2)

/-- The payload `SetReaction` builds. -/
def setReactionPayload (messageID emoji : Bytes) (shouldReact : Bool) : GoMap :=
  let payload : GoMap := []
  let payload := payload.set (lit "messageId") (Any.string messageID)
  let payload := payload.set (lit "emoji") (Any.string emoji)
  payload.set (lit "shouldReact") (Any.bool shouldReact)

/-- Go `Client.SetReaction`. -/
def Client.SetReaction (c : Client σ ε Status Message) (messageID emoji : Bytes)
    (shouldReact : Bool) (w : World σ) : Option ε × World σ :=
  match json.Marshal (setReactionPayload messageID emoji shouldReact) with
  | Except.error err => (some err, w)
  | Except.ok body =>
      let r := c.Post "chat.react" body Into.Status (default : Status) w
      (r.1.2, r.2)

/-- The payload `UpdateMessage` builds. -/
def updateMessagePayload (messageID roomID newText : Bytes) : GoMap :=
  let payload : GoMap := []
  let payload := payload.set (lit "messageId") (Any.string messageID)
  let payload := payload.set (lit "roomId") (Any.string roomID)
  payload.set (lit "text") (Any.string newText)

/-- Go `Client.UpdateMessage`. -/
def Client.UpdateMessage (c : Client σ ε Status Message) (messageID roomID newText : Bytes)
    (w : World σ) : (Option (MessageResponse Status Message) × Option ε) × World σ :=
  match json.Marshal (updateMessagePayload messageID roomID newText) with
  | Except.error err => ((none, some err), w)
  | Except.ok body =>
      let r := c.Post "chat.update" body Into.MessageResponse newMessageResponse w
      ((some r.1.1, r.1.2), r.2)

/-- The query `GetMessage` builds. -/
def getMessageParams (messageID : Bytes) : url.Values :=
  [(lit "messageId", [messageID])]

/-- Go `Client.GetMessage`. -/
def Client.GetMessage (c : Client σ ε Status Message) (messageID : Bytes) (w : World σ) :
    (Option (MessageResponse Status Message) × Option ε) × World σ :=
  let params := getMessageParams messageID
  let r := c.Get "chat.getMessage" params Into.MessageResponse newMessageResponse w
  ((some r.1.1, r.1.2), r.2)

end Operations

/-! ## Notions of the specification and sample inputs -/

/-- The decoded form of a payload value. -/
def Any.toValue : Any → json.Value
  | Any.string s => json.Value.string s
  | Any.bool b => json.Value.bool b

/-- A payload value whose strings are valid UTF-8. -/
def Any.valid : Any → Bool
  | Any.string s => utf8.ValidString s
  | Any.bool _ => true

/-- The five entities of the HTML escape. -/
def entities : List Bytes :=
  [lit "&lt;", lit "&gt;", lit "&amp;", lit "&#39;", lit "&#34;"]

/-- The HTML escape of one byte, as the specification words it: `<`, `>`,
`&`, `'` and `"` become their entities, any other byte is kept. -/
def escapeByteSpec (b : Nat) : Bytes :=
  if b = 0x3C then lit "&lt;"
  else if b = 0x3E then lit "&gt;"
  else if b = 0x26 then lit "&amp;"
  else if b = 0x27 then lit "&#39;"
  else if b = 0x22 then lit "&#34;"
  else [b]

/-- A byte a JSON string holds as itself: printable ASCII other than the
quote and the backslash. -/
def plainByte (b : Nat) : Bool :=
  decide (0x20 ≤ b ∧ b < 0x80 ∧ b ≠ 0x22 ∧ b ≠ 0x5C)

/-- The decimal rendering of an integer: a `-` for a negative value, then
`0` for zero and otherwise the base-10 digits of the absolute value, most
significant first, without leading zeros. -/
def decimal (i : Int) : Bytes :=
  (if i < 0 then [0x2D] else []) ++
    (if i = 0 then [0x30] else (Nat.digits 10 i.natAbs).reverse.map fun d => 0x30 + d)

/-- A client whose every call fails with error `7` and leaves the response
value as it was; the remote state counts the calls. -/
def failingClient : Client Nat Nat Bool Nat where
  doPost := fun _ _ _ r n => ((r, some 7), n + 1)
  doGet := fun _ _ _ r n => ((r, some 7), n + 1)

/-- An encoder for post messages that are plain byte strings: it refuses the
empty message with error `3` and quotes any other. -/
def sampleMarshal (m : Bytes) : Except Nat Bytes :=
  if m = [] then Except.error 3 else Except.ok (json.appendString m)

/-- The world before any request. -/
def emptyWorld : World Nat := { requests := [], remote := 0 }

/-! ## Lemmas -/

/-! ## UTF-8 -/

namespace utf8

/-- A second byte inside the accept range of its first byte is a continuation
byte, within the narrower bounds the first bytes E0, F0, ED and F4 ask for. -/
theorem accept_bounds (b b1 : Nat) (h : ¬ (b1 < acceptLo b ∨ acceptHi b < b1)) :
    0x80 ≤ b1 ∧ b1 ≤ 0xBF ∧ (b = 0xE0 → 0xA0 ≤ b1) ∧ (b = 0xF0 → 0x90 ≤ b1) ∧
    (b = 0xED → b1 ≤ 0x9F) ∧ (b = 0xF4 → b1 ≤ 0x8F) := by
  unfold acceptLo acceptHi at h
  split_ifs at h <;> omega

/-- A multi-byte sequence `DecodeRune` accepts: encoding the rune gives the
bytes read back, the result depends on those bytes alone, the width is
between one and the length of the input, and the rune is neither ASCII nor a
surrogate. -/
theorem DecodeRune_wellformed (b : Nat) (t : Bytes) (hb : ¬ b < RuneSelf)
    (hv : ¬ ((DecodeRune (b :: t)).1 = RuneError ∧ (DecodeRune (b :: t)).2 = 1)) :
    EncodeRune (DecodeRune (b :: t)).1 = (b :: t).take (DecodeRune (b :: t)).2 ∧
    (∀ x, DecodeRune ((b :: t).take (DecodeRune (b :: t)).2 ++ x) = DecodeRune (b :: t)) ∧
    0 < (DecodeRune (b :: t)).2 ∧ (DecodeRune (b :: t)).2 ≤ (b :: t).length ∧
    RuneSelf ≤ (DecodeRune (b :: t)).1 ∧
    ¬ (0xD800 ≤ (DecodeRune (b :: t)).1 ∧ (DecodeRune (b :: t)).1 < 0xE000) := by
  unfold RuneSelf at hb ⊢
  unfold RuneError at hv
  by_cases h1 : b < 0xC2 ∨ 0xF4 < b
  · exfalso; apply hv; simp [DecodeRune, RuneSelf, RuneError, hb, h1]
  by_cases h2 : b < 0xE0
  · match t with
    | [] => exfalso; apply hv; simp [DecodeRune, RuneSelf, RuneError, hb, h1, h2]
    | b1 :: t1 =>
      by_cases hr : b1 < acceptLo b ∨ acceptHi b < b1
      · exfalso; apply hv
        simp [DecodeRune, RuneSelf, RuneError, hb, h1, h2, hr]
      · have hd : ∀ x, DecodeRune (b :: b1 :: x) = (b % 32 * 64 + b1 % 64, 2) := by
          intro x
          simp [DecodeRune, RuneSelf, RuneError, hb, h1, h2, hr]
        have hbd := accept_bounds b b1 hr
        rw [hd]
        refine ⟨?_, ?_, by simp, by simp, by omega, by omega⟩
        · simp only [EncodeRune, List.take]
          rw [if_neg (by omega), if_pos (by omega)]
          congr 1
          · omega
          · congr 1; omega
        · intro x; simp [hd]
  by_cases h3 : b < 0xF0
  · match t with
    | [] => exfalso; apply hv; simp [DecodeRune, RuneSelf, RuneError, hb, h1, h2, h3]
    | [_] => exfalso; apply hv; simp [DecodeRune, RuneSelf, RuneError, hb, h1, h2, h3]
    | b1 :: b2 :: t1 =>
      by_cases hr : b1 < acceptLo b ∨ acceptHi b < b1
      · exfalso; apply hv
        simp [DecodeRune, RuneSelf, RuneError, hb, h1, h2, h3, hr]
      by_cases hr2 : b2 < 0x80 ∨ 0xBF < b2
      · exfalso; apply hv
        simp [DecodeRune, RuneSelf, RuneError, hb, h1, h2, h3, hr, hr2]
      have hd : ∀ x, DecodeRune (b :: b1 :: b2 :: x)
          = (b % 16 * 4096 + b1 % 64 * 64 + b2 % 64, 3) := by
        intro x
        simp [DecodeRune, RuneSelf, RuneError, hb, h1, h2, h3, hr, hr2]
      have hbd := accept_bounds b b1 hr
      rw [hd]
      refine ⟨?_, ?_, by simp, by simp, by omega, by omega⟩
      · simp only [EncodeRune, List.take]
        rw [if_neg (by omega), if_neg (by omega), if_neg (by omega), if_pos (by omega)]
        congr 1
        · omega
        · congr 1
          · omega
          · congr 1; omega
      · intro x; simp [hd]
  · match t with
    | [] => exfalso; apply hv; simp [DecodeRune, RuneSelf, RuneError, hb, h1, h2, h3]
    | [_] => exfalso; apply hv; simp [DecodeRune, RuneSelf, RuneError, hb, h1, h2, h3]
    | [_, _] => exfalso; apply hv; simp [DecodeRune, RuneSelf, RuneError, hb, h1, h2, h3]
    | b1 :: b2 :: b3 :: t1 =>
      by_cases hr : b1 < acceptLo b ∨ acceptHi b < b1
      · exfalso; apply hv
        simp [DecodeRune, RuneSelf, RuneError, hb, h1, h2, h3, hr]
      by_cases hr2 : b2 < 0x80 ∨ 0xBF < b2
      · exfalso; apply hv
        simp [DecodeRune, RuneSelf, RuneError, hb, h1, h2, h3, hr, hr2]
      by_cases hr3 : b3 < 0x80 ∨ 0xBF < b3
      · exfalso; apply hv
        simp [DecodeRune, RuneSelf, RuneError, hb, h1, h2, h3, hr, hr2, hr3]
      have hd : ∀ x, DecodeRune (b :: b1 :: b2 :: b3 :: x)
          = (b % 8 * 262144 + b1 % 64 * 4096 + b2 % 64 * 64 + b3 % 64, 4) := by
        intro x
        simp [DecodeRune, RuneSelf, RuneError, hb, h1, h2, h3, hr, hr2, hr3]
      have hbd := accept_bounds b b1 hr
      rw [hd]
      refine ⟨?_, ?_, by simp, by simp, by omega, by omega⟩
      · simp only [EncodeRune, List.take]
        rw [if_neg (by omega), if_neg (by omega), if_neg (by omega), if_neg (by omega)]
        congr 1
        · omega
        · congr 1
          · omega
          · congr 1
            · omega
            · congr 1; omega
      · intro x; simp [hd]

end utf8

/-! ## JSON strings -/

namespace json

/-- The escape of an unsafe ASCII byte is a two-character escape that
`unescape` reads back, or `\u00` and two hexadecimal digits of the byte. -/
theorem escapeByte_shape :
    ∀ b, b < 128 → htmlSafeSet b = false →
      (escapeByte b = [0x5C, (escapeByte b).getD 1 0] ∧ (escapeByte b).getD 1 0 ≠ 0x75 ∧
        unescape ((escapeByte b).getD 1 0) = some b) ∨
      (escapeByte b = [0x5C, 0x75, (escapeByte b).getD 2 0, (escapeByte b).getD 3 0,
          (escapeByte b).getD 4 0, (escapeByte b).getD 5 0] ∧
        unhex ((escapeByte b).getD 2 0) = some 0 ∧ unhex ((escapeByte b).getD 3 0) = some 0 ∧
        unhex ((escapeByte b).getD 4 0) = some (b / 16) ∧
        unhex ((escapeByte b).getD 5 0) = some (b % 16)) := by
  decide

/-- One step of `unquoteLoop` on a `\uXXXX` escape of a rune that is not a
surrogate. -/
theorem unquoteLoop_u4 (a b c d x y z w m : Nat) (tail : Bytes)
    (ha : unhex a = some x) (hb : unhex b = some y) (hc : unhex c = some z)
    (hd : unhex d = some w)
    (hs : ¬ (0xD800 ≤ x * 4096 + y * 256 + z * 16 + w ∧ x * 4096 + y * 256 + z * 16 + w < 0xE000)) :
    unquoteLoop (m + 1) (0x5C :: 0x75 :: a :: b :: c :: d :: tail)
      = (unquoteLoop m tail).map
          fun r => (utf8.EncodeRune (x * 4096 + y * 256 + z * 16 + w) ++ r.1, r.2) := by
  simp [unquoteLoop, getu4, ha, hb, hc, hd, hs]

/-- One step of `unquoteLoop` reads the escape of an unsafe ASCII byte back
as that byte. -/
theorem unquoteLoop_escapeByte (b : Nat) (hb : b < 128) (hs : htmlSafeSet b = false)
    (m : Nat) (tail : Bytes) :
    unquoteLoop (m + 1) (escapeByte b ++ tail)
      = (unquoteLoop m tail).map fun r => (b :: r.1, r.2) := by
  rcases escapeByte_shape b hb hs with ⟨he, hx, hu⟩ | ⟨he, h1, h2, h3, h4⟩
  · generalize (escapeByte b).getD 1 0 = x at he hx hu
    rw [he]
    simp [unquoteLoop, hx, hu]
  · generalize (escapeByte b).getD 2 0 = x2 at he h1
    generalize (escapeByte b).getD 3 0 = x3 at he h2
    generalize (escapeByte b).getD 4 0 = x4 at he h3
    generalize (escapeByte b).getD 5 0 = x5 at he h4
    rw [he]
    have hval : b / 16 * 16 + b % 16 = b := by omega
    have hns : ¬ (55296 ≤ b ∧ b < 57344) := by omega
    simp [unquoteLoop, getu4, h1, h2, h3, h4, hval, utf8.EncodeRune, hns, hb]


/-- An escape is not empty. -/
theorem escapeByte_length (b : Nat) : 0 < (escapeByte b).length := by
  unfold escapeByte
  split_ifs <;> first | decide | simp

/-- Reading back what `appendStringLoop` writes for a valid UTF-8 string,
up to the closing quote, gives the string. -/
theorem unquoteLoop_appendStringLoop (n : Nat) :
    ∀ (s rest : Bytes) (m : Nat), s.length ≤ n →
      (appendStringLoop n s ++ 0x22 :: rest).length ≤ m → utf8.validAux n s = true →
      unquoteLoop m (appendStringLoop n s ++ 0x22 :: rest) = some (s, rest) := by
  induction n with
  | zero =>
      intro s rest m hs hm _
      have : s = [] := List.eq_nil_of_length_eq_zero (by omega)
      subst this
      obtain ⟨m, rfl⟩ : ∃ k, m = k + 1 := ⟨m - 1, by simp [appendStringLoop] at hm; omega⟩
      simp [appendStringLoop, unquoteLoop]
  | succ n ih =>
      intro s rest m hs hm hv
      obtain ⟨m, rfl⟩ : ∃ k, m = k + 1 := ⟨m - 1, by simp at hm; omega⟩
      cases s with
      | nil => simp [appendStringLoop, unquoteLoop]
      | cons b t =>
          have ht : t.length ≤ n := by simpa using hs
          by_cases hb : b < utf8.RuneSelf
          · have hvt : utf8.validAux n t = true := by
              simpa [utf8.validAux, hb] using hv
            by_cases hsafe : htmlSafeSet b = true
            · have hstep : appendStringLoop (n + 1) (b :: t) = b :: appendStringLoop n t := by
                simp [appendStringLoop, hb, hsafe]
              rw [hstep] at hm ⊢
              have hm' : (appendStringLoop n t ++ 0x22 :: rest).length ≤ m := by
                simpa using hm
              have hsafe' := hsafe
              simp only [htmlSafeSet, decide_eq_true_eq] at hsafe'
              obtain ⟨h20, _, h22, _, _, _, h5c⟩ := hsafe'
              simp [unquoteLoop, hb, h22, h5c, Nat.not_lt.mpr h20, ih t rest m ht hm' hvt]
            · have hsafe' : htmlSafeSet b = false := by simpa using hsafe
              have hstep : appendStringLoop (n + 1) (b :: t)
                  = escapeByte b ++ appendStringLoop n t := by
                simp [appendStringLoop, hb, hsafe']
              rw [hstep, List.append_assoc] at hm ⊢
              have hm' : (appendStringLoop n t ++ 0x22 :: rest).length ≤ m := by
                have := escapeByte_length b
                rw [List.length_append] at hm
                omega
              rw [unquoteLoop_escapeByte b hb hsafe', ih t rest m ht hm' hvt]
              rfl
          · have hd := utf8.DecodeRune_wellformed b t hb
            have hv' : ¬ ((utf8.DecodeRune (b :: t)).1 = utf8.RuneError ∧
                (utf8.DecodeRune (b :: t)).2 = 1) ∧
                utf8.validAux n ((b :: t).drop (utf8.DecodeRune (b :: t)).2) = true := by
              simp only [utf8.validAux, hb, if_false] at hv
              split_ifs at hv with h
              exact ⟨h, hv⟩
            obtain ⟨henc, hdec, hpos, hle, hself, hsur⟩ := hd hv'.1
            obtain ⟨hne, hvt⟩ := hv'
            rcases hD : utf8.DecodeRune (b :: t) with ⟨r, sz⟩
            rw [hD] at henc hdec hpos hle hself hsur hne hvt
            simp only at henc hdec hpos hle hself hsur hne hvt
            have hdl : ((b :: t).drop sz).length ≤ n := by
              rw [List.length_drop]; simp only [List.length_cons] at hs ⊢; omega
            have htl : ((b :: t).take sz).length = sz := by
              rw [List.length_take]; omega
            have hb80 : 0x80 ≤ b := by simpa [utf8.RuneSelf] using hb
            by_cases hls : r = 0x2028 ∨ r = 0x2029
            · have hstep : appendStringLoop (n + 1) (b :: t)
                  = [0x5C, 0x75, 0x32, 0x30, 0x32, 0x30 + r % 16]
                      ++ appendStringLoop n ((b :: t).drop sz) := by
                have hl : lit "\\u202" = [0x5C, 0x75, 0x32, 0x30, 0x32] := by decide
                have hx : hex.getD (r % 16) 0 = 0x30 + r % 16 := by
                  rcases hls with h | h <;> subst h <;> decide
                simp only [appendStringLoop, hb, if_false, hD, hne, hls, if_true, hl, hx]
                simp
              rw [hstep, List.append_assoc] at hm ⊢
              have hm' : (appendStringLoop n ((b :: t).drop sz) ++ 0x22 :: rest).length ≤ m := by
                rw [List.length_append] at hm
                simp only [List.length_cons, List.length_nil] at hm
                omega
              have hu : unhex (0x30 + r % 16) = some (r % 16) := by
                rcases hls with h | h <;> subst h <;> decide
              have hval : 2 * 4096 + 0 * 256 + 2 * 16 + r % 16 = r := by
                rcases hls with h | h <;> subst h <;> rfl
              have h2 : unhex 0x32 = some 2 := by decide
              have h0 : unhex 0x30 = some 0 := by decide
              simp only [List.cons_append, List.nil_append]
              rw [unquoteLoop_u4 _ _ _ _ _ _ _ _ m _ h2 h0 h2 hu (by rw [hval]; exact hsur),
                hval, ih _ rest m hdl hm' hvt, Option.map_some', henc, List.take_append_drop]
            · have hstep : appendStringLoop (n + 1) (b :: t)
                  = (b :: t).take sz ++ appendStringLoop n ((b :: t).drop sz) := by
                simp only [appendStringLoop, hb, if_false, hD, hne, hls]
              rw [hstep, List.append_assoc] at hm ⊢
              have hm' : (appendStringLoop n ((b :: t).drop sz) ++ 0x22 :: rest).length ≤ m := by
                rw [List.length_append, htl] at hm
                omega
              obtain ⟨k, rfl⟩ : ∃ k, sz = k + 1 := ⟨sz - 1, by omega⟩
              have hdec' := hdec (appendStringLoop n ((b :: t).drop (k + 1)) ++ 0x22 :: rest)
              have hdrop : List.drop (k + 1) ((b :: t).take (k + 1) ++
                  (appendStringLoop n ((b :: t).drop (k + 1)) ++ 0x22 :: rest))
                  = appendStringLoop n ((b :: t).drop (k + 1)) ++ 0x22 :: rest := by
                rw [List.drop_append_of_le_length (by omega), List.drop_eq_nil_of_le (by omega)]
                rfl
              generalize hX : appendStringLoop n ((b :: t).drop (k + 1)) ++ 0x22 :: rest = X at *
              have hih := ih _ rest m hdl (hX ▸ hm') hvt
              rw [hX] at hih
              have htake : (b :: t).take (k + 1) = b :: t.take k := rfl
              rw [htake] at hdec' hdrop ⊢
              simp only [List.cons_append] at hdec' hdrop ⊢
              simp only [unquoteLoop, hb, if_false, hdec', hdrop, hih, Option.map_some']
              rw [if_neg (by omega), if_neg (by omega), if_neg (by omega)]
              rw [henc, List.take_append_drop]

end json




/-! ## JSON objects -/

namespace json

/-- The round trip of a string literal, with the bounds `appendString` and
`unquote` use. -/
theorem unquote_appendStringLoop (s rest : Bytes) (hv : utf8.ValidString s = true) :
    unquote (appendStringLoop s.length s ++ 0x22 :: rest) = some (s, rest) :=
  unquoteLoop_appendStringLoop s.length s rest _ le_rfl le_rfl hv

/-- A string literal in front of more text. -/
theorem appendString_append (s rest : Bytes) :
    appendString s ++ rest = 0x22 :: (appendStringLoop s.length s ++ 0x22 :: rest) := by
  simp [appendString]

/-- A string literal parses to its string. -/
theorem parseValue_appendString (n : Nat) (s rest : Bytes) (hv : utf8.ValidString s = true) :
    parseValue (n + 1) (appendString s ++ rest) = some (Value.string s, rest) := by
  rw [appendString_append]
  simp [parseValue, skipSpace, unquote_appendStringLoop s rest hv]

/-- An encoded payload value parses to its decoded form. -/
theorem parseValue_encodeAny (n : Nat) (v : Any) (rest : Bytes) (hv : v.valid = true) :
    parseValue (n + 1) (encodeAny v ++ rest) = some (v.toValue, rest) := by
  cases v with
  | string s => exact parseValue_appendString n s rest hv
  | bool b =>
      have ht : lit "true" = [0x74, 0x72, 0x75, 0x65] := by decide
      have hf : lit "false" = [0x66, 0x61, 0x6C, 0x73, 0x65] := by decide
      have ht' : lit "rue" = [0x72, 0x75, 0x65] := by decide
      have hf' : lit "alse" = [0x61, 0x6C, 0x73, 0x65] := by decide
      cases b <;> simp [encodeAny, ht, hf, ht', hf', parseValue, skipSpace, expect, Any.toValue]

/-- One member of an object, parsed: what follows decides between a further
member and the end of the object. -/
theorem parseMembers_member (k : Nat) (key : Bytes) (v : Any) (tail : Bytes)
    (hk : utf8.ValidString key = true) (hv : v.valid = true) :
    parseMembers (k + 2) (appendString key ++ 0x3A :: (encodeAny v ++ tail))
      = match skipSpace tail with
        | [] => none
        | d :: r4 =>
            if d = 0x2C then
              (parseMembers (k + 1) r4).map fun m => ((key, v.toValue) :: m.1, m.2)
            else if d = 0x7D then some ([(key, v.toValue)], r4)
            else none := by
  rw [appendString_append, parseMembers]
  simp [skipSpace, unquote_appendStringLoop _ _ hk, parseValue_encodeAny k v _ hv]

/-- The members `encodeEntries` writes parse to the entries, in order. -/
theorem parseMembers_encodeEntries (es : List (Bytes × Any)) :
    ∀ (e : Bytes × Any) (rest : Bytes) (n : Nat), es.length + 2 ≤ n →
      (∀ x ∈ e :: es, utf8.ValidString x.1 = true ∧ x.2.valid = true) →
      parseMembers n (encodeEntries (e :: es) ++ 0x7D :: rest)
        = some ((e :: es).map fun x => (x.1, x.2.toValue), rest) := by
  induction es with
  | nil =>
      intro e rest n hn hv
      obtain ⟨k, rfl⟩ : ∃ k, n = k + 2 := ⟨n - 2, by simp at hn; omega⟩
      obtain ⟨hk, hval⟩ := hv e (by simp)
      simp only [encodeEntries, List.append_assoc, List.cons_append]
      rw [parseMembers_member k e.1 e.2 _ hk hval]
      simp [skipSpace]
  | cons e2 es ih =>
      intro e rest n hn hv
      obtain ⟨k, rfl⟩ : ∃ k, n = k + 2 := ⟨n - 2, by simp at hn; omega⟩
      obtain ⟨hk, hval⟩ := hv e (by simp)
      have hrec := ih e2 rest (k + 1) (by simp at hn ⊢; omega)
        (fun x hx => hv x (List.mem_cons_of_mem _ hx))
      simp only [encodeEntries, List.append_assoc, List.cons_append]
      rw [parseMembers_member k e.1 e.2 _ hk hval]
      simp [skipSpace, hrec]

/-- Every member takes at least one byte. -/
theorem encodeEntries_length (es : List (Bytes × Any)) :
    es.length ≤ (encodeEntries es).length := by
  induction es with
  | nil => simp
  | cons e es ih =>
      cases es with
      | nil => simp [encodeEntries, appendString]
      | cons e2 es =>
          simp only [encodeEntries, List.length_append, List.length_cons] at ih ⊢
          omega

/-- Insertion adds the entry and nothing else. -/
theorem mem_insertEntry (e x : Bytes × Any) (es : List (Bytes × Any)) :
    x ∈ insertEntry e es → x = e ∨ x ∈ es := by
  induction es with
  | nil => simp [insertEntry]
  | cons y es ih =>
      unfold insertEntry
      split_ifs
      · simp
      · intro h
        rcases List.mem_cons.mp h with h | h
        · right; simp [h]
        · rcases ih h with h | h
          · left; exact h
          · right; exact List.mem_cons_of_mem _ h

/-- Sorting keeps to the entries of the map. -/
theorem mem_sortedEntries (m : GoMap) (x : Bytes × Any) :
    x ∈ sortedEntries m → x ∈ m := by
  induction m with
  | nil => simp [sortedEntries]
  | cons e m ih =>
      intro h
      rcases mem_insertEntry e x _ h with h | h
      · simp [h]
      · exact List.mem_cons_of_mem _ (ih h)

/-- Decoding the text `Marshal` gives for a map of valid strings and
booleans gives an object with the entries of the map, in key order. -/
theorem Unmarshal_encodeMap (m : GoMap)
    (hv : ∀ x ∈ m, utf8.ValidString x.1 = true ∧ x.2.valid = true) :
    Unmarshal (encodeMap m)
      = some (Value.object ((sortedEntries m).map fun x => (x.1, x.2.toValue))) := by
  have hv' : ∀ x ∈ sortedEntries m, utf8.ValidString x.1 = true ∧ x.2.valid = true :=
    fun x hx => hv x (mem_sortedEntries m x hx)
  have hlen := encodeEntries_length (sortedEntries m)
  unfold encodeMap Unmarshal
  generalize sortedEntries m = es at hv' hlen ⊢
  cases es with
  | nil => simp [encodeEntries, parseValue, skipSpace]
  | cons e es =>
      have hq : ∃ t, encodeEntries (e :: es) = 0x22 :: t := by
        cases es <;> simp [encodeEntries, appendString]
      obtain ⟨t, ht⟩ := hq
      have hpm := parseMembers_encodeEntries es e []
        (0x7B :: encodeEntries (e :: es) ++ [0x7D]).length
        (by simp only [List.length_cons, List.length_append, List.length_nil] at hlen ⊢; omega) hv'
      rw [ht] at hpm
      simp only [List.cons_append, List.length_cons, List.length_append, List.length_nil]
        at hpm
      simp [parseValue, skipSpace, ht, hpm]

end json
/-! ## HTML escape, `Sprintf` and `Itoa` -/

/-- The replacer of `html` replaces a byte as the specification says. -/
theorem html.replaceByte_eq (b : Nat) :
    strings.Replacer.replaceByte html.htmlEscaper b = escapeByteSpec b := by
  unfold html.htmlEscaper escapeByteSpec
  simp only [strings.Replacer.replaceByte]
  by_cases h1 : b = 0x26
  · subst h1; decide
  by_cases h2 : b = 0x27
  · subst h2; decide
  by_cases h3 : b = 0x3C
  · subst h3; decide
  by_cases h4 : b = 0x3E
  · subst h4; decide
  by_cases h5 : b = 0x22
  · subst h5; decide
  simp [h1, h2, h3, h4, h5]

/-- The escape is made byte by byte. -/
theorem html.EscapeString_eq_flatMap (s : Bytes) :
    html.EscapeString s = s.flatMap escapeByteSpec := by
  unfold html.EscapeString
  induction s with
  | nil => rfl
  | cons b s ih => simp [strings.Replacer.Replace, ih, html.replaceByte_eq]

/-- The escape of one byte is that byte, which is none of the five, or an
entity; it holds no raw `<`, `>`, `'` or `"`, and an `&` only in front. -/
theorem escapeByteSpec_cases (b : Nat) :
    (escapeByteSpec b = [b] ∧ b ≠ 0x3C ∧ b ≠ 0x3E ∧ b ≠ 0x26 ∧ b ≠ 0x27 ∧ b ≠ 0x22) ∨
    (escapeByteSpec b ∈ entities) := by
  unfold escapeByteSpec
  by_cases h1 : b = 0x3C
  · right; simp [h1, entities]
  by_cases h2 : b = 0x3E
  · right; simp [h2, entities]
  by_cases h3 : b = 0x26
  · right; simp [h3, entities]
  by_cases h4 : b = 0x27
  · right; simp [h4, entities]
  by_cases h5 : b = 0x22
  · right; simp [h5, entities]
  left; simp [h1, h2, h3, h4, h5]

/-- An entity holds no raw `<`, `>`, `'` or `"`, starts with `&` and holds no
other `&`. -/
theorem entities_shape :
    ∀ e ∈ entities, (∀ x ∈ e, x ≠ 0x3C ∧ x ≠ 0x3E ∧ x ≠ 0x27 ∧ x ≠ 0x22) ∧
      ∃ t, e = 0x26 :: t ∧ ∀ x ∈ t, x ≠ 0x26 := by
  have h : ∀ e ∈ entities, (∀ x ∈ e, x ≠ 0x3C ∧ x ≠ 0x3E ∧ x ≠ 0x27 ∧ x ≠ 0x22) ∧
      e = 0x26 :: e.tail ∧ ∀ x ∈ e.tail, x ≠ 0x26 := by decide
  intro e he
  exact ⟨(h e he).1, e.tail, (h e he).2⟩

/-- No raw `<`, `>`, `'` or `"` is left in an escaped text. -/
theorem html.EscapeString_no_raw (s : Bytes) :
    ∀ x ∈ html.EscapeString s, x ≠ 0x3C ∧ x ≠ 0x3E ∧ x ≠ 0x27 ∧ x ≠ 0x22 := by
  rw [html.EscapeString_eq_flatMap]
  intro x hx
  obtain ⟨b, _, hxb⟩ := List.mem_flatMap.mp hx
  rcases escapeByteSpec_cases b with ⟨hb, h1, h2, _, h4, h5⟩ | he
  · rw [hb] at hxb
    have : x = b := by simpa using hxb
    subst this
    exact ⟨h1, h2, h4, h5⟩
  · exact (entities_shape _ he).1 x hxb

/-- Every `&` of an escaped text starts an entity. -/
theorem html.EscapeString_amp (s : Bytes) (i : Nat)
    (hi : (html.EscapeString s).get? i = some 0x26) :
    ∃ e ∈ entities, e <+: (html.EscapeString s).drop i := by
  rw [html.EscapeString_eq_flatMap] at hi ⊢
  induction s generalizing i with
  | nil => simp at hi
  | cons b s ih =>
      rw [List.flatMap_cons] at hi ⊢
      by_cases hlt : i < (escapeByteSpec b).length
      · rcases escapeByteSpec_cases b with ⟨hb, _, _, h3, _, _⟩ | he
        · rw [hb] at hi hlt
          have hi0 : i = 0 := by simpa using hlt
          subst hi0
          simp at hi
          exact absurd hi h3
        · obtain ⟨_, t, het, hamp⟩ := entities_shape _ he
          have hi0 : i = 0 := by
            rcases Nat.eq_zero_or_pos i with h0 | hpos
            · exact h0
            · exfalso
              rw [het] at hi hlt
              obtain ⟨j, rfl⟩ : ∃ j, i = j + 1 := ⟨i - 1, by omega⟩
              simp only [List.cons_append, List.get?_cons_succ, List.length_cons] at hi hlt
              rw [List.get?_eq_getElem?, List.getElem?_append_left (by omega)] at hi
              exact hamp _ (List.getElem?_mem hi) rfl
          subst hi0
          exact ⟨_, he, by simp⟩
      · have hle : (escapeByteSpec b).length ≤ i := Nat.le_of_not_lt hlt
        rw [List.get?_eq_getElem?, List.getElem?_append_right hle,
          ← List.get?_eq_getElem?] at hi
        obtain ⟨e, he, hpre⟩ := ih _ hi
        refine ⟨e, he, ?_⟩
        rw [List.drop_append_eq_append_drop, List.drop_eq_nil_of_le hle]
        simpa using hpre

/-- The body of `Send` is its template with the channel name and the escaped
text in the two places. -/
theorem sendBody_eq (channel : models.Channel) (msg : Bytes) :
    sendBody channel msg
      = lit "\x7b \"channel\": \"" ++ channel.Name ++ lit "\", \"text\": \"" ++
          html.EscapeString msg ++ lit "\"\x7d" := by
  have hl : lit "\x7b \"channel\": \"%s\", \"text\": \"%s\"\x7d"
      = [0x7B, 0x20, 0x22, 0x63, 0x68, 0x61, 0x6E, 0x6E, 0x65, 0x6C, 0x22, 0x3A, 0x20, 0x22,
          0x25, 0x73, 0x22, 0x2C, 0x20, 0x22, 0x74, 0x65, 0x78, 0x74, 0x22, 0x3A, 0x20, 0x22,
          0x25, 0x73, 0x22, 0x7D] := by decide
  have h1 : lit "\x7b \"channel\": \""
      = [0x7B, 0x20, 0x22, 0x63, 0x68, 0x61, 0x6E, 0x6E, 0x65, 0x6C, 0x22, 0x3A, 0x20, 0x22] := by
    decide
  have h2 : lit "\", \"text\": \""
      = [0x22, 0x2C, 0x20, 0x22, 0x74, 0x65, 0x78, 0x74, 0x22, 0x3A, 0x20, 0x22] := by decide
  have h3 : lit "\"\x7d" = [0x22, 0x7D] := by decide
  unfold sendBody
  rw [hl, h1, h2, h3]
  simp [fmt.Sprintf, fmt.extra]

/-- The digits `formatBits` writes are the base-10 digits of the number,
most significant first. -/
theorem strconv.formatBits_digits (n u : Nat) (acc : Bytes) (hn : u ≤ n) (hu : 0 < u) :
    strconv.formatBits n u acc
      = ((Nat.digits 10 u).reverse.map fun d => 0x30 + d) ++ acc := by
  induction n generalizing u acc with
  | zero => omega
  | succ n ih =>
      unfold strconv.formatBits
      by_cases h : u < 10
      · simp [h, Nat.digits_of_lt 10 u (by omega) h]
      · rw [if_neg h, ih (u / 10) _ (by omega) (by omega),
          Nat.digits_def' (by norm_num : 1 < 10) hu]
        simp

/-- `strconv.Itoa` writes the decimal rendering. -/
theorem strconv.Itoa_eq_decimal (i : Int) : strconv.Itoa i = decimal i := by
  unfold strconv.Itoa decimal
  by_cases h0 : i = 0
  · subst h0; simp [strconv.formatBits]
  · have hpos : 0 < i.natAbs := Int.natAbs_pos.mpr h0
    rw [strconv.formatBits_digits _ _ _ le_rfl hpos]
    by_cases hneg : i < 0 <;> simp [hneg, h0]

/-! ## The body of `Send` on plain inputs -/

namespace json

/-- A run of plain bytes in front of a closing quote is read as it stands. -/
theorem unquoteLoop_plain (s : Bytes) :
    ∀ (rest : Bytes) (m : Nat), s.length < m → (∀ b ∈ s, plainByte b = true) →
      unquoteLoop m (s ++ 0x22 :: rest) = some (s, rest) := by
  induction s with
  | nil =>
      intro rest m hm _
      obtain ⟨m, rfl⟩ : ∃ k, m = k + 1 := ⟨m - 1, by simp at hm; omega⟩
      simp [unquoteLoop]
  | cons b s ih =>
      intro rest m hm hp
      obtain ⟨m, rfl⟩ : ∃ k, m = k + 1 := ⟨m - 1, by simp at hm; omega⟩
      have hb := hp b (by simp)
      simp only [plainByte, decide_eq_true_eq] at hb
      obtain ⟨h20, h80, h22, h5c⟩ := hb
      have hrec := ih rest m (by simpa using hm) (fun x hx => hp x (List.mem_cons_of_mem _ hx))
      simp [unquoteLoop, h22, h5c, Nat.not_lt.mpr h20, utf8.RuneSelf, h80, hrec]

/-- A JSON string of plain bytes is read as it stands. -/
theorem unquote_plain (s rest : Bytes) (hp : ∀ b ∈ s, plainByte b = true) :
    unquote (s ++ 0x22 :: rest) = some (s, rest) :=
  unquoteLoop_plain s rest _ (by simp) hp

/-- The shape of the body of `Send`, parsed: an object of two members. -/
theorem parseValue_two_members (k : Nat) (kc name kt e : Bytes)
    (hc : ∀ b ∈ kc, plainByte b = true) (hn : ∀ b ∈ name, plainByte b = true)
    (ht : ∀ b ∈ kt, plainByte b = true) (he : ∀ b ∈ e, plainByte b = true) :
    parseValue (k + 4)
        (0x7B :: 0x20 :: 0x22 :: (kc ++ 0x22 :: 0x3A :: 0x20 :: 0x22 ::
          (name ++ 0x22 :: 0x2C :: 0x20 :: 0x22 :: (kt ++ 0x22 :: 0x3A :: 0x20 :: 0x22 ::
            (e ++ [0x22, 0x7D])))))
      = some (Value.object [(kc, Value.string name), (kt, Value.string e)], []) := by
  have v1 : ∀ rest, parseValue (k + 2) (0x20 :: 0x22 :: (name ++ 0x22 :: rest))
      = some (Value.string name, rest) := by
    intro rest
    rw [parseValue]
    simp [skipSpace, unquote_plain name rest hn]
  have v2 : ∀ rest, parseValue (k + 1) (0x20 :: 0x22 :: (e ++ 0x22 :: rest))
      = some (Value.string e, rest) := by
    intro rest
    rw [parseValue]
    simp [skipSpace, unquote_plain e rest he]
  have m2 : parseMembers (k + 2) (0x20 :: 0x22 :: (kt ++ 0x22 :: 0x3A :: 0x20 :: 0x22 ::
      (e ++ [0x22, 0x7D]))) = some ([(kt, Value.string e)], []) := by
    rw [parseMembers]
    simp [skipSpace, unquote_plain kt _ ht, v2]
  have m1 : parseMembers (k + 3) (0x22 :: (kc ++ 0x22 :: 0x3A :: 0x20 :: 0x22 ::
      (name ++ 0x22 :: 0x2C :: 0x20 :: 0x22 :: (kt ++ 0x22 :: 0x3A :: 0x20 :: 0x22 ::
        (e ++ [0x22, 0x7D])))))
      = some ([(kc, Value.string name), (kt, Value.string e)], []) := by
    rw [parseMembers]
    simp [skipSpace, unquote_plain kc _ hc, v1, m2]
  rw [parseValue]
  simp [skipSpace, m1]

end json

/-- The escape of a text of printable ASCII without backslash is plain. -/
theorem html.EscapeString_plain (msg : Bytes)
    (h : ∀ b ∈ msg, 0x20 ≤ b ∧ b < 0x80 ∧ b ≠ 0x5C) :
    ∀ x ∈ html.EscapeString msg, plainByte x = true := by
  intro x hx
  have hraw := html.EscapeString_no_raw msg x hx
  rw [html.EscapeString_eq_flatMap] at hx
  obtain ⟨b, hb, hxb⟩ := List.mem_flatMap.mp hx
  rcases escapeByteSpec_cases b with ⟨he, _⟩ | he
  · rw [he] at hxb
    have : x = b := by simpa using hxb
    subst this
    obtain ⟨h1, h2, h3⟩ := h x hb
    simp [plainByte, h1, h2, h3, hraw.2.2.2]
  · have hall : ∀ e ∈ entities, ∀ y ∈ e, plainByte y = true := by decide
    exact hall _ he x hxb

/-- Where `Send` does build JSON: for a channel name of plain bytes and a
text of printable ASCII without backslash, the body decodes to an object
with the members `channel`, the name, and `text`, the escaped text. -/
theorem sendBody_decodes_of_plain (channel : models.Channel) (msg : Bytes)
    (hn : ∀ b ∈ channel.Name, plainByte b = true)
    (hm : ∀ b ∈ msg, 0x20 ≤ b ∧ b < 0x80 ∧ b ≠ 0x5C) :
    json.Unmarshal (sendBody channel msg)
      = some (json.Value.object
          [(lit "channel", json.Value.string channel.Name),
            (lit "text", json.Value.string (html.EscapeString msg))]) := by
  have he := html.EscapeString_plain msg hm
  have h1 : lit "\x7b \"channel\": \""
      = [0x7B, 0x20, 0x22] ++ (lit "channel" ++ 0x22 :: [0x3A, 0x20, 0x22]) := by decide
  have h2 : lit "\", \"text\": \""
      = 0x22 :: [0x2C, 0x20, 0x22] ++ (lit "text" ++ 0x22 :: [0x3A, 0x20, 0x22]) := by decide
  have h3 : lit "\"\x7d" = [0x22, 0x7D] := by decide
  have hc : ∀ b ∈ lit "channel", plainByte b = true := by decide
  have ht : ∀ b ∈ lit "text", plainByte b = true := by decide
  rw [sendBody_eq, h1, h2, h3]
  generalize html.EscapeString msg = e at he ⊢
  generalize hkc : lit "channel" = kc at hc
  generalize hkt : lit "text" = kt at ht
  have hlen : ∃ k, (0x7B :: 0x20 :: 0x22 :: (kc ++ 0x22 :: 0x3A :: 0x20 :: 0x22 ::
      (channel.Name ++ 0x22 :: 0x2C :: 0x20 :: 0x22 :: (kt ++ 0x22 :: 0x3A :: 0x20 :: 0x22 ::
        (e ++ [0x22, 0x7D]))))).length + 1 = k + 4 :=
    ⟨_, by simp only [List.length_cons]; rfl⟩
  obtain ⟨k, hk⟩ := hlen
  unfold json.Unmarshal
  simp only [List.append_assoc, List.cons_append, List.nil_append]
  rw [hk, json.parseValue_two_members k kc channel.Name kt e hc hn ht he]
  simp [json.skipSpace]

/-! ## The payloads -/

/-- The payload of `SetReaction`, entry by entry. -/
theorem setReactionPayload_eq (messageID emoji : Bytes) (shouldReact : Bool) :
    setReactionPayload messageID emoji shouldReact
      = [(lit "messageId", Any.string messageID), (lit "emoji", Any.string emoji),
          (lit "shouldReact", Any.bool shouldReact)] := by
  have h1 : lit "messageId" ≠ lit "emoji" := by decide
  have h2 : lit "messageId" ≠ lit "shouldReact" := by decide
  have h3 : lit "emoji" ≠ lit "shouldReact" := by decide
  simp [setReactionPayload, GoMap.set, h1, h2, h3]

/-- The payload of `UpdateMessage`, entry by entry. -/
theorem updateMessagePayload_eq (messageID roomID newText : Bytes) :
    updateMessagePayload messageID roomID newText
      = [(lit "messageId", Any.string messageID), (lit "roomId", Any.string roomID),
          (lit "text", Any.string newText)] := by
  have h1 : lit "messageId" ≠ lit "roomId" := by decide
  have h2 : lit "messageId" ≠ lit "text" := by decide
  have h3 : lit "roomId" ≠ lit "text" := by decide
  simp [updateMessagePayload, GoMap.set, h1, h2, h3]

/-- The payload of `SetReaction` in key order. -/
theorem setReactionPayload_sorted (messageID emoji : Bytes) (shouldReact : Bool) :
    json.sortedEntries (setReactionPayload messageID emoji shouldReact)
      = [(lit "emoji", Any.string emoji), (lit "messageId", Any.string messageID),
          (lit "shouldReact", Any.bool shouldReact)] := by
  have h1 : lit "messageId" ≠ lit "emoji" := by decide
  have h2 : lit "messageId" ≠ lit "shouldReact" := by decide
  have h3 : lit "emoji" ≠ lit "shouldReact" := by decide
  have h4 : strings.le (lit "emoji") (lit "shouldReact") = true := by decide
  have h5 : strings.le (lit "messageId") (lit "emoji") = false := by decide
  have h6 : strings.le (lit "messageId") (lit "shouldReact") = true := by decide
  simp [setReactionPayload, GoMap.set, json.sortedEntries, json.insertEntry, h1, h2, h3, h4, h5,
    h6]

/-- The payload of `UpdateMessage` in key order. -/
theorem updateMessagePayload_sorted (messageID roomID newText : Bytes) :
    json.sortedEntries (updateMessagePayload messageID roomID newText)
      = [(lit "messageId", Any.string messageID), (lit "roomId", Any.string roomID),
          (lit "text", Any.string newText)] := by
  have h1 : lit "messageId" ≠ lit "roomId" := by decide
  have h2 : lit "messageId" ≠ lit "text" := by decide
  have h3 : lit "roomId" ≠ lit "text" := by decide
  have h4 : strings.le (lit "roomId") (lit "text") = true := by decide
  have h5 : strings.le (lit "messageId") (lit "roomId") = true := by decide
  simp [updateMessagePayload, GoMap.set, json.sortedEntries, json.insertEntry, h1, h2, h3, h4,
    h5]

/-! ## The claims -/

section Claims

variable {σ ε Status Message PostMsg : Type}

/-- C1, evaluated where it fails: `Send` copies the channel name and the
HTML-escaped text into its template without JSON escaping.  A text with a
line feed or a backslash, or a channel name with a quote, gives a body that
is not well-formed JSON; a text with the two characters `\n` gives a body
whose `text` member decodes to a line feed, not to the escaped text. -/
theorem Send_body_not_json :
    sendBody ⟨lit "GENERAL", lit "general"⟩ (lit "a\nb")
        = lit "\x7b \"channel\": \"general\", \"text\": \"a\nb\"\x7d" ∧
    json.Unmarshal (sendBody ⟨lit "GENERAL", lit "general"⟩ (lit "a\nb")) = none ∧
    json.Unmarshal (sendBody ⟨lit "GENERAL", lit "general"⟩ (lit "C:\\dir")) = none ∧
    json.Unmarshal (sendBody ⟨lit "GENERAL", lit "my \"room\""⟩ (lit "hi")) = none ∧
    json.Unmarshal (sendBody ⟨lit "GENERAL", lit "general"⟩ (lit "a\\nb"))
        = some (json.Value.object
            [(lit "channel", json.Value.string (lit "general")),
              (lit "text", json.Value.string (lit "a\nb"))]) ∧
    html.EscapeString (lit "a\\nb") ≠ lit "a\nb" := by
  refine ⟨by decide, by rfl, by rfl, by rfl, by rfl, by decide⟩

/-- C2: the text `Send` places in its body is the HTML escape of `msg`: each
of `<`, `>`, `&`, `'` and `"` is replaced by its entity and every other byte
is kept, so the inserted text holds no raw `<`, `>`, `'` or `"`, and every
`&` in it starts one of the five entities. -/
theorem Send_text_is_html_escape [Inhabited Status] [Inhabited Message]
    (c : Client σ ε Status Message) (channel : models.Channel) (msg : Bytes) (w : World σ) :
    (c.Send channel msg w).2.requests
        = w.requests ++ [Request.Post "chat.postMessage"
            (lit "\x7b \"channel\": \"" ++ channel.Name ++ lit "\", \"text\": \"" ++
              html.EscapeString msg ++ lit "\"\x7d")] ∧
    html.EscapeString msg = msg.flatMap escapeByteSpec ∧
    (∀ x ∈ html.EscapeString msg, x ≠ 0x3C ∧ x ≠ 0x3E ∧ x ≠ 0x27 ∧ x ≠ 0x22) ∧
    (∀ i, (html.EscapeString msg).get? i = some 0x26 →
        ∃ e ∈ entities, e <+: (html.EscapeString msg).drop i) := by
  refine ⟨?_, html.EscapeString_eq_flatMap msg, html.EscapeString_no_raw msg,
    fun i hi => html.EscapeString_amp msg i hi⟩
  rw [← sendBody_eq]
  rfl

/-- C3: every operation issues exactly one request through the client, with
its fixed method and endpoint, whatever the client answers (failure or
success), whenever building the request succeeds: `Send` and `PostMessage`
POST to `chat.postMessage`, `SetReaction` POSTs to `chat.react`,
`UpdateMessage` POSTs to `chat.update`, `GetMessages` GETs `channels.history`
and `GetMessage` GETs `chat.getMessage`.  The world an operation leaves is
the world its one call `c.Post` or `c.Get` leaves: the requests issued so
far with that one request added, and the remote state the client's single
`doPost` or `doGet` gives from the state before; no second call acts on
it. -/
theorem one_request_per_operation [Inhabited Status] [Inhabited Message]
    (c : Client σ ε Status Message)
    (marshal : PostMsg → Except ε Bytes) (w : World σ)
    (channel : models.Channel) (page : Option models.Pagination) (post : PostMsg)
    (msg messageID emoji roomID newText body : Bytes) (shouldReact : Bool)
    (hbody : marshal post = Except.ok body) :
    ((c.Send channel msg w).2
        = (c.Post "chat.postMessage" (sendBody channel msg) Into.MessageResponse
            newMessageResponse w).2 ∧
      (c.Send channel msg w).2
        = { requests := w.requests ++ [Request.Post "chat.postMessage" (sendBody channel msg)],
            remote := (c.doPost "chat.postMessage" (sendBody channel msg)
              Into.MessageResponse newMessageResponse w.remote).2 }) ∧
    ((c.PostMessage marshal post w).2
        = (c.Post "chat.postMessage" body Into.MessageResponse newMessageResponse w).2 ∧
      (c.PostMessage marshal post w).2
        = { requests := w.requests ++ [Request.Post "chat.postMessage" body],
            remote := (c.doPost "chat.postMessage" body
              Into.MessageResponse newMessageResponse w.remote).2 }) ∧
    ((c.SetReaction messageID emoji shouldReact w).2
        = (c.Post "chat.react"
            (json.encodeMap (setReactionPayload messageID emoji shouldReact))
            Into.Status (default : Status) w).2 ∧
      (c.SetReaction messageID emoji shouldReact w).2
        = { requests := w.requests ++ [Request.Post "chat.react"
              (json.encodeMap (setReactionPayload messageID emoji shouldReact))],
            remote := (c.doPost "chat.react"
              (json.encodeMap (setReactionPayload messageID emoji shouldReact))
              Into.Status (default : Status) w.remote).2 }) ∧
    ((c.UpdateMessage messageID roomID newText w).2
        = (c.Post "chat.update"
            (json.encodeMap (updateMessagePayload messageID roomID newText))
            Into.MessageResponse newMessageResponse w).2 ∧
      (c.UpdateMessage messageID roomID newText w).2
        = { requests := w.requests ++ [Request.Post "chat.update"
              (json.encodeMap (updateMessagePayload messageID roomID newText))],
            remote := (c.doPost "chat.update"
              (json.encodeMap (updateMessagePayload messageID roomID newText))
              Into.MessageResponse newMessageResponse w.remote).2 }) ∧
    ((c.GetMessages channel page w).2
        = (c.Get "channels.history" (getMessagesParams channel page)
            Into.MessagesResponse newMessagesResponse w).2 ∧
      (c.GetMessages channel page w).2
        = { requests := w.requests ++
              [Request.Get "channels.history" (getMessagesParams channel page)],
            remote := (c.doGet "channels.history" (getMessagesParams channel page)
              Into.MessagesResponse newMessagesResponse w.remote).2 }) ∧
    ((c.GetMessage messageID w).2
        = (c.Get "chat.getMessage" (getMessageParams messageID)
            Into.MessageResponse newMessageResponse w).2 ∧
      (c.GetMessage messageID w).2
        = { requests := w.requests ++
              [Request.Get "chat.getMessage" (getMessageParams messageID)],
            remote := (c.doGet "chat.getMessage" (getMessageParams messageID)
              Into.MessageResponse newMessageResponse w.remote).2 }) := by
  have hpm : (c.PostMessage marshal post w).2
      = (c.Post "chat.postMessage" body Into.MessageResponse newMessageResponse w).2 := by
    simp [Client.PostMessage, hbody]
  have hgm : (c.GetMessages channel page w).2
      = (c.Get "channels.history" (getMessagesParams channel page)
          Into.MessagesResponse newMessagesResponse w).2 := by
    dsimp only [Client.GetMessages]
    split <;> rfl
  exact ⟨⟨rfl, rfl⟩, ⟨hpm, hpm.trans rfl⟩, ⟨rfl, rfl⟩, ⟨rfl, rfl⟩, ⟨hgm, hgm.trans rfl⟩,
    ⟨rfl, rfl⟩⟩

/-- Witness for C3: the failing client, which counts its calls in the remote
state, and a post message that encodes; every operation leaves the count at
one. -/
theorem one_request_per_operation_witness :
    sampleMarshal (lit "hi") = Except.ok (lit "\"hi\"") ∧
    (((failingClient.Send ⟨lit "r1", lit "general"⟩ (lit "a<b") emptyWorld).2
        = (failingClient.Post "chat.postMessage" (sendBody ⟨lit "r1", lit "general"⟩ (lit "a<b"))
            Into.MessageResponse newMessageResponse emptyWorld).2 ∧
      (failingClient.Send ⟨lit "r1", lit "general"⟩ (lit "a<b") emptyWorld).2
        = { requests := emptyWorld.requests ++
              [Request.Post "chat.postMessage" (sendBody ⟨lit "r1", lit "general"⟩ (lit "a<b"))],
            remote := (failingClient.doPost "chat.postMessage"
              (sendBody ⟨lit "r1", lit "general"⟩ (lit "a<b"))
              Into.MessageResponse newMessageResponse emptyWorld.remote).2 }) ∧
    ((failingClient.PostMessage sampleMarshal (lit "hi") emptyWorld).2
        = (failingClient.Post "chat.postMessage" (lit "\"hi\"") Into.MessageResponse
            newMessageResponse emptyWorld).2 ∧
      (failingClient.PostMessage sampleMarshal (lit "hi") emptyWorld).2
        = { requests := emptyWorld.requests ++ [Request.Post "chat.postMessage" (lit "\"hi\"")],
            remote := (failingClient.doPost "chat.postMessage" (lit "\"hi\"")
              Into.MessageResponse newMessageResponse emptyWorld.remote).2 }) ∧
    ((failingClient.SetReaction (lit "m1") (lit ":+1:") true emptyWorld).2
        = (failingClient.Post "chat.react"
            (json.encodeMap (setReactionPayload (lit "m1") (lit ":+1:") true))
            Into.Status (default : Bool) emptyWorld).2 ∧
      (failingClient.SetReaction (lit "m1") (lit ":+1:") true emptyWorld).2
        = { requests := emptyWorld.requests ++ [Request.Post "chat.react"
              (json.encodeMap (setReactionPayload (lit "m1") (lit ":+1:") true))],
            remote := (failingClient.doPost "chat.react"
              (json.encodeMap (setReactionPayload (lit "m1") (lit ":+1:") true))
              Into.Status (default : Bool) emptyWorld.remote).2 }) ∧
    ((failingClient.UpdateMessage (lit "m1") (lit "r1") (lit "new") emptyWorld).2
        = (failingClient.Post "chat.update"
            (json.encodeMap (updateMessagePayload (lit "m1") (lit "r1") (lit "new")))
            Into.MessageResponse newMessageResponse emptyWorld).2 ∧
      (failingClient.UpdateMessage (lit "m1") (lit "r1") (lit "new") emptyWorld).2
        = { requests := emptyWorld.requests ++ [Request.Post "chat.update"
              (json.encodeMap (updateMessagePayload (lit "m1") (lit "r1") (lit "new")))],
            remote := (failingClient.doPost "chat.update"
              (json.encodeMap (updateMessagePayload (lit "m1") (lit "r1") (lit "new")))
              Into.MessageResponse newMessageResponse emptyWorld.remote).2 }) ∧
    ((failingClient.GetMessages ⟨lit "r1", lit "general"⟩ (some ⟨5⟩) emptyWorld).2
        = (failingClient.Get "channels.history"
            (getMessagesParams ⟨lit "r1", lit "general"⟩ (some ⟨5⟩))
            Into.MessagesResponse newMessagesResponse emptyWorld).2 ∧
      (failingClient.GetMessages ⟨lit "r1", lit "general"⟩ (some ⟨5⟩) emptyWorld).2
        = { requests := emptyWorld.requests ++ [Request.Get "channels.history"
              (getMessagesParams ⟨lit "r1", lit "general"⟩ (some ⟨5⟩))],
            remote := (failingClient.doGet "channels.history"
              (getMessagesParams ⟨lit "r1", lit "general"⟩ (some ⟨5⟩))
              Into.MessagesResponse newMessagesResponse emptyWorld.remote).2 }) ∧
    ((failingClient.GetMessage (lit "m1") emptyWorld).2
        = (failingClient.Get "chat.getMessage" (getMessageParams (lit "m1"))
            Into.MessageResponse newMessageResponse emptyWorld).2 ∧
      (failingClient.GetMessage (lit "m1") emptyWorld).2
        = { requests := emptyWorld.requests ++
              [Request.Get "chat.getMessage" (getMessageParams (lit "m1"))],
            remote := (failingClient.doGet "chat.getMessage" (getMessageParams (lit "m1"))
              Into.MessageResponse newMessageResponse emptyWorld.remote).2 })) :=
  ⟨rfl,
    one_request_per_operation failingClient sampleMarshal emptyWorld ⟨lit "r1", lit "general"⟩
      (some ⟨5⟩) (lit "hi") (lit "a<b") (lit "m1") (lit ":+1:") (lit "r1") (lit "new")
      (lit "\"hi\"") true rfl⟩

/-- C4: the query `GetMessages` sends has the key `roomId` with exactly one
value, the channel's ID; it has the key `count` exactly when a pagination is
given, and then with exactly one value, the decimal rendering of the
pagination's `Count` (zero and negative counts included); it has no other
key. -/
theorem GetMessages_query [Inhabited Status] (c : Client σ ε Status Message)
    (channel : models.Channel) (page : Option models.Pagination) (w : World σ) :
    (c.GetMessages channel page w).2.requests
        = w.requests ++ [Request.Get "channels.history" (getMessagesParams channel page)] ∧
    (getMessagesParams channel page).lookup (lit "roomId") = some [channel.ID] ∧
    (getMessagesParams channel page).lookup (lit "count")
        = page.map (fun p => [decimal p.Count]) ∧
    (∀ key, (getMessagesParams channel page).lookup key ≠ none →
        key = lit "roomId" ∨ key = lit "count") ∧
    ((getMessagesParams channel page).map Prod.fst
        = if page.isSome then [lit "roomId", lit "count"] else [lit "roomId"]) := by
  refine ⟨?_, ?_⟩
  · dsimp only [Client.GetMessages]
    split <;> simp [Client.Get]
  · have hne : lit "roomId" ≠ lit "count" := by decide
    cases page with
    | none =>
        refine ⟨by simp [getMessagesParams, url.Values.lookup], ?_, ?_, by simp [getMessagesParams]⟩
        · simp [getMessagesParams, url.Values.lookup, hne]
        · intro key hk
          by_cases h : lit "roomId" = key
          · exact Or.inl h.symm
          · simp [getMessagesParams, url.Values.lookup, h] at hk
    | some p =>
        refine ⟨by simp [getMessagesParams, url.Values.lookup, url.Values.Add, hne], ?_, ?_,
          by simp [getMessagesParams, url.Values.Add, hne]⟩
        · simp [getMessagesParams, url.Values.lookup, url.Values.Add, hne,
            strconv.Itoa_eq_decimal]
        · intro key hk
          by_cases h : lit "roomId" = key
          · exact Or.inl h.symm
          · by_cases h2 : lit "count" = key
            · exact Or.inr h2.symm
            · simp [getMessagesParams, url.Values.lookup, url.Values.Add, hne, h, h2] at hk

/-- C5: `GetMessages` returns a nil list and the error `e` when the client's
`Get` fails with `e`, and the decoded list of the response with a nil error
when `Get` succeeds; it never returns both a list and an error. -/
theorem GetMessages_result_or_error [Inhabited Status] (c : Client σ ε Status Message)
    (channel : models.Channel) (page : Option models.Pagination) (w : World σ) :
    (c.GetMessages channel page w).1 =
      (match (c.doGet "channels.history" (getMessagesParams channel page)
          Into.MessagesResponse newMessagesResponse w.remote).1 with
        | (_, some e) => (none, some e)
        | (response, none) =>
            ((response : MessagesResponse Status Message).Messages, none)) ∧
    ((c.GetMessages channel page w).1.1 = none ∨
      (c.GetMessages channel page w).1.2 = none) := by
  dsimp only [Client.GetMessages, Client.Get]
  rcases h : (c.doGet "channels.history" (getMessagesParams channel page)
      Into.MessagesResponse newMessagesResponse w.remote).1 with ⟨response, _ | e⟩ <;> simp

/-- C6: every operation returns the error of the client's `Post` or `Get`
call unchanged, nil when the call returns nil, once the request is built. -/
theorem error_surfaced_unchanged [Inhabited Status] [Inhabited Message]
    (c : Client σ ε Status Message)
    (marshal : PostMsg → Except ε Bytes) (w : World σ)
    (channel : models.Channel) (page : Option models.Pagination) (post : PostMsg)
    (msg messageID emoji roomID newText body : Bytes) (shouldReact : Bool)
    (hbody : marshal post = Except.ok body) :
    (c.Send channel msg w).1
        = (c.doPost "chat.postMessage" (sendBody channel msg) Into.MessageResponse
            newMessageResponse w.remote).1.2 ∧
    (c.PostMessage marshal post w).1.2
        = (c.doPost "chat.postMessage" body Into.MessageResponse
            newMessageResponse w.remote).1.2 ∧
    (c.GetMessages channel page w).1.2
        = (c.doGet "channels.history" (getMessagesParams channel page)
            Into.MessagesResponse newMessagesResponse w.remote).1.2 ∧
    (c.SetReaction messageID emoji shouldReact w).1
        = (c.doPost "chat.react"
            (json.encodeMap (setReactionPayload messageID emoji shouldReact))
            Into.Status (default : Status) w.remote).1.2 ∧
    (c.UpdateMessage messageID roomID newText w).1.2
        = (c.doPost "chat.update"
            (json.encodeMap (updateMessagePayload messageID roomID newText))
            Into.MessageResponse newMessageResponse w.remote).1.2 ∧
    (c.GetMessage messageID w).1.2
        = (c.doGet "chat.getMessage" (getMessageParams messageID) Into.MessageResponse
            newMessageResponse w.remote).1.2 := by
  refine ⟨rfl, ?_, ?_, rfl, rfl, rfl⟩
  · simp [Client.PostMessage, hbody, Client.Post]
  · dsimp only [Client.GetMessages, Client.Get]
    split <;> simp_all

/-- Witness for C6: the failing client, whose error `7` every operation
returns. -/
theorem error_surfaced_unchanged_witness :
    sampleMarshal (lit "hi") = Except.ok (lit "\"hi\"") ∧
    (failingClient.Send ⟨lit "r1", lit "general"⟩ (lit "a<b") emptyWorld).1 = some 7 ∧
    (failingClient.PostMessage sampleMarshal (lit "hi") emptyWorld).1.2 = some 7 ∧
    (failingClient.GetMessages ⟨lit "r1", lit "general"⟩ none emptyWorld).1.2 = some 7 ∧
    (failingClient.SetReaction (lit "m1") (lit ":+1:") true emptyWorld).1 = some 7 ∧
    (failingClient.UpdateMessage (lit "m1") (lit "r1") (lit "new") emptyWorld).1.2 = some 7 ∧
    (failingClient.GetMessage (lit "m1") emptyWorld).1.2 = some 7 :=
  ⟨rfl,
    error_surfaced_unchanged failingClient sampleMarshal emptyWorld ⟨lit "r1", lit "general"⟩
      none (lit "hi") (lit "a<b") (lit "m1") (lit ":+1:") (lit "r1") (lit "new")
      (lit "\"hi\"") true rfl⟩

/-- C7: `PostMessage` sends the JSON encoding of the message as the body of
its request; when the encoding fails with `e` it issues no request (the
world is left as it was) and returns a nil response together with `e`. -/
theorem PostMessage_body_or_encoding_error [Inhabited Status] [Inhabited Message]
    (c : Client σ ε Status Message)
    (marshal : PostMsg → Except ε Bytes) (post : PostMsg) (w : World σ) :
    match marshal post with
    | Except.ok body =>
        (c.PostMessage marshal post w).2.requests
          = w.requests ++ [Request.Post "chat.postMessage" body] ∧
        (c.PostMessage marshal post w).2.remote
          = (c.doPost "chat.postMessage" body Into.MessageResponse
              newMessageResponse w.remote).2
    | Except.error e => c.PostMessage marshal post w = ((none, some e), w) := by
  cases h : marshal post <;> simp [Client.PostMessage, h, Client.Post]

/-- C8: once the request is issued, `PostMessage`, `UpdateMessage` and
`GetMessage` return a non-nil response, the value as the client left it,
together with the client's error, also when that error is not nil;
`GetMessages` returns a nil list when its call fails. -/
theorem response_returned_with_error [Inhabited Status] [Inhabited Message]
    (c : Client σ ε Status Message)
    (marshal : PostMsg → Except ε Bytes) (w : World σ)
    (channel : models.Channel) (page : Option models.Pagination) (post : PostMsg)
    (messageID roomID newText body : Bytes)
    (hbody : marshal post = Except.ok body) :
    (c.PostMessage marshal post w).1
        = (some (c.doPost "chat.postMessage" body Into.MessageResponse
            newMessageResponse w.remote).1.1,
          (c.doPost "chat.postMessage" body Into.MessageResponse
            newMessageResponse w.remote).1.2) ∧
    (c.UpdateMessage messageID roomID newText w).1
        = (some (c.doPost "chat.update"
            (json.encodeMap (updateMessagePayload messageID roomID newText))
            Into.MessageResponse newMessageResponse w.remote).1.1,
          (c.doPost "chat.update"
            (json.encodeMap (updateMessagePayload messageID roomID newText))
            Into.MessageResponse newMessageResponse w.remote).1.2) ∧
    (c.GetMessage messageID w).1
        = (some (c.doGet "chat.getMessage" (getMessageParams messageID)
            Into.MessageResponse newMessageResponse w.remote).1.1,
          (c.doGet "chat.getMessage" (getMessageParams messageID)
            Into.MessageResponse newMessageResponse w.remote).1.2) ∧
    ((c.doGet "channels.history" (getMessagesParams channel page)
        Into.MessagesResponse newMessagesResponse w.remote).1.2 = none ∨
      (c.GetMessages channel page w).1.1 = none) := by
  refine ⟨?_, rfl, rfl, ?_⟩
  · simp [Client.PostMessage, hbody, Client.Post]
  · dsimp only [Client.GetMessages, Client.Get]
    split <;> simp_all

/-- Witness for C8: with the failing client the three operations return the
unfilled response and the error `7`, and `GetMessages` a nil list. -/
theorem response_returned_with_error_witness :
    sampleMarshal (lit "hi") = Except.ok (lit "\"hi\"") ∧
    (failingClient.PostMessage sampleMarshal (lit "hi") emptyWorld).1
        = (some newMessageResponse, some 7) ∧
    (failingClient.UpdateMessage (lit "m1") (lit "r1") (lit "new") emptyWorld).1
        = (some newMessageResponse, some 7) ∧
    (failingClient.GetMessage (lit "m1") emptyWorld).1 = (some newMessageResponse, some 7) ∧
    ((some 7 : Option Nat) = none ∨
      (failingClient.GetMessages ⟨lit "r1", lit "general"⟩ none emptyWorld).1.1 = none) :=
  ⟨rfl,
    response_returned_with_error failingClient sampleMarshal emptyWorld
      ⟨lit "r1", lit "general"⟩ none (lit "hi") (lit "m1") (lit "r1") (lit "new")
      (lit "\"hi\"") rfl⟩

/-- C9: for valid UTF-8 strings `messageID`, `emoji`, `roomID`, `newText`
and every boolean `shouldReact`, the body `SetReaction` sends decodes to an
object with exactly the three members `emoji`, `messageId` and `shouldReact`
holding the arguments, and the body `UpdateMessage` sends to an object with
exactly the three members `messageId`, `roomId` and `text`; each body is a
function of the arguments alone (whatever the client and the world), with
the members written in sorted key order. -/
theorem reaction_and_update_bodies_round_trip [Inhabited Status] [Inhabited Message]
    (c : Client σ ε Status Message) (w : World σ)
    (messageID emoji roomID newText : Bytes) (shouldReact : Bool)
    (hm : utf8.ValidString messageID = true) (he : utf8.ValidString emoji = true)
    (hr : utf8.ValidString roomID = true) (ht : utf8.ValidString newText = true) :
    ((c.SetReaction messageID emoji shouldReact w).2.requests
        = w.requests ++ [Request.Post "chat.react"
            (json.encodeMap (setReactionPayload messageID emoji shouldReact))] ∧
      json.encodeMap (setReactionPayload messageID emoji shouldReact)
        = lit "\x7b\"emoji\":" ++ json.appendString emoji ++
          lit ",\"messageId\":" ++ json.appendString messageID ++
          lit ",\"shouldReact\":" ++ (if shouldReact then lit "true" else lit "false") ++
          lit "\x7d" ∧
      json.Unmarshal (json.encodeMap (setReactionPayload messageID emoji shouldReact))
        = some (json.Value.object
            [(lit "emoji", json.Value.string emoji),
              (lit "messageId", json.Value.string messageID),
              (lit "shouldReact", json.Value.bool shouldReact)])) ∧
    ((c.UpdateMessage messageID roomID newText w).2.requests
        = w.requests ++ [Request.Post "chat.update"
            (json.encodeMap (updateMessagePayload messageID roomID newText))] ∧
      json.encodeMap (updateMessagePayload messageID roomID newText)
        = lit "\x7b\"messageId\":" ++ json.appendString messageID ++
          lit ",\"roomId\":" ++ json.appendString roomID ++
          lit ",\"text\":" ++ json.appendString newText ++ lit "\x7d" ∧
      json.Unmarshal (json.encodeMap (updateMessagePayload messageID roomID newText))
        = some (json.Value.object
            [(lit "messageId", json.Value.string messageID),
              (lit "roomId", json.Value.string roomID),
              (lit "text", json.Value.string newText)])) := by
  have k1 : utf8.ValidString (lit "messageId") = true := by decide
  have k2 : utf8.ValidString (lit "emoji") = true := by decide
  have k3 : utf8.ValidString (lit "shouldReact") = true := by decide
  have k4 : utf8.ValidString (lit "roomId") = true := by decide
  have k5 : utf8.ValidString (lit "text") = true := by decide
  refine ⟨⟨rfl, ?_, ?_⟩, ⟨rfl, ?_, ?_⟩⟩
  · have a1 : json.appendString (lit "emoji") = lit "\"emoji\"" := by decide
    have a2 : json.appendString (lit "messageId") = lit "\"messageId\"" := by decide
    have a3 : json.appendString (lit "shouldReact") = lit "\"shouldReact\"" := by decide
    have l1 : lit "\x7b\"emoji\":" = 0x7B :: lit "\"emoji\"" ++ [0x3A] := by decide
    have l2 : lit ",\"messageId\":" = 0x2C :: lit "\"messageId\"" ++ [0x3A] := by decide
    have l3 : lit ",\"shouldReact\":" = 0x2C :: lit "\"shouldReact\"" ++ [0x3A] := by decide
    have l4 : lit "\x7d" = [0x7D] := by decide
    rw [json.encodeMap, setReactionPayload_sorted, l1, l2, l3, l4]
    cases shouldReact <;> simp [json.encodeEntries, json.encodeAny, a1, a2, a3]
  · rw [json.Unmarshal_encodeMap, setReactionPayload_sorted]
    · rfl
    · intro x hx
      rw [setReactionPayload_eq] at hx
      simp only [List.mem_cons, List.mem_singleton, List.not_mem_nil, or_false] at hx
      rcases hx with rfl | rfl | rfl
      · exact ⟨k1, hm⟩
      · exact ⟨k2, he⟩
      · exact ⟨k3, rfl⟩
  · have a1 : json.appendString (lit "messageId") = lit "\"messageId\"" := by decide
    have a2 : json.appendString (lit "roomId") = lit "\"roomId\"" := by decide
    have a3 : json.appendString (lit "text") = lit "\"text\"" := by decide
    have l1 : lit "\x7b\"messageId\":" = 0x7B :: lit "\"messageId\"" ++ [0x3A] := by decide
    have l2 : lit ",\"roomId\":" = 0x2C :: lit "\"roomId\"" ++ [0x3A] := by decide
    have l3 : lit ",\"text\":" = 0x2C :: lit "\"text\"" ++ [0x3A] := by decide
    have l4 : lit "\x7d" = [0x7D] := by decide
    rw [json.encodeMap, updateMessagePayload_sorted, l1, l2, l3, l4]
    simp [json.encodeEntries, json.encodeAny, a1, a2, a3]
  · rw [json.Unmarshal_encodeMap, updateMessagePayload_sorted]
    · rfl
    · intro x hx
      rw [updateMessagePayload_eq] at hx
      simp only [List.mem_cons, List.mem_singleton, List.not_mem_nil, or_false] at hx
      rcases hx with rfl | rfl | rfl
      · exact ⟨k1, hm⟩
      · exact ⟨k4, hr⟩
      · exact ⟨k5, ht⟩

/-- Witness for C9: strings with a quote, a backslash, a line feed, `<` and a
four-byte rune. -/
theorem reaction_and_update_bodies_round_trip_witness :
    utf8.ValidString (lit "m\"1") = true ∧ utf8.ValidString (lit "👍<") = true ∧
    utf8.ValidString (lit "r1") = true ∧ utf8.ValidString (lit "a\\b\nc") = true ∧
    json.Unmarshal (json.encodeMap (setReactionPayload (lit "m\"1") (lit "👍<") true))
        = some (json.Value.object
            [(lit "emoji", json.Value.string (lit "👍<")),
              (lit "messageId", json.Value.string (lit "m\"1")),
              (lit "shouldReact", json.Value.bool true)]) ∧
    json.Unmarshal (json.encodeMap (updateMessagePayload (lit "m\"1") (lit "r1") (lit "a\\b\nc")))
        = some (json.Value.object
            [(lit "messageId", json.Value.string (lit "m\"1")),
              (lit "roomId", json.Value.string (lit "r1")),
              (lit "text", json.Value.string (lit "a\\b\nc"))]) :=
  ⟨by decide, by decide, by decide, by decide,
    (reaction_and_update_bodies_round_trip failingClient emptyWorld (lit "m\"1") (lit "👍<")
      (lit "r1") (lit "a\\b\nc") true (by decide) (by decide) (by decide) (by decide)).1.2.2,
    (reaction_and_update_bodies_round_trip failingClient emptyWorld (lit "m\"1") (lit "👍<")
      (lit "r1") (lit "a\\b\nc") true (by decide) (by decide) (by decide) (by decide)).2.2.2⟩

end Claims

end Rest
